import Mathlib

/-!
Verification development for the StRose discrete-event care-unit simulator
(src/strose.py, src/test_strose.py).

The pure parts of the source (the g_rand duration sampler and the entity
constructors Patient / CareActivity / Need / SimulatedUnit) are embedded
directly as Lean functions.  The discrete-event kernel used by the source
(clock, event queue, FIFO resource pools, conjunctive wait) comes from the
simpy library, whose code is not part of this repository; it is modelled
from the spec (sections 4.1 to 4.4) as an explicit step relation, and the
patient workflow SimulatedUnit.provide_care is translated from the source
on top of it.

Numbers are embedded as rationals; Python int() truncation is explicit.
Randomness is embedded as a stream of standard-normal deviates held in the
simulation state, mirroring the module-global numpy generator the source
draws from.
-/

/-! ## Duration sampler: g_rand (src/strose.py lines 4-42) -/

/-! Rational arithmetic spelled through mkRat so that every value the
model computes reduces inside the kernel (the library operations on the
rationals are irreducible); qadd_eq, qsub_eq, qmul_eq and qofInt_eq below
prove these agree with the standard operations. -/

/-- Addition on the rationals, kernel-reducible spelling. -/
def qadd (a b : ℚ) : ℚ :=
  mkRat (a.num * (b.den : ℤ) + b.num * (a.den : ℤ)) (a.den * b.den)

/-- Subtraction on the rationals, kernel-reducible spelling. -/
def qsub (a b : ℚ) : ℚ :=
  mkRat (a.num * (b.den : ℤ) - b.num * (a.den : ℤ)) (a.den * b.den)

/-- Multiplication on the rationals, kernel-reducible spelling. -/
def qmul (a b : ℚ) : ℚ :=
  mkRat (a.num * b.num) (a.den * b.den)

/-- The embedding of an integer into the rationals, kernel-reducible. -/
def qofInt (n : ℤ) : ℚ :=
  mkRat n 1

/-- Python int() truncates toward zero: for a rational in lowest terms
this is the truncating division of the numerator by the denominator. -/
def py_int (q : ℚ) : ℤ :=
  q.num.tdiv (q.den : ℤ)

/-- A bound argument of g_rand: None, a plain number, or a string holding
the letter s and a number k, meaning k standard deviations from mu. -/
inductive GBound where
  | unbounded : GBound
  | abs : ℚ → GBound
  | sigmas : ℚ → GBound

/-- The keyword arguments of g_rand, with the source defaults.  These are
the only parameters the source function has; the normal draw itself comes
from the module-global numpy generator, not from any argument. -/
structure TimeReq where
  mu : ℚ
  sigma : ℚ := 0
  minimum : GBound := GBound.unbounded
  maximum : GBound := GBound.unbounded
  output_integers : Bool := true

/-- Embedding of np.random.normal(mu, sigma): the ambient generator
supplies a standard-normal deviate z and the draw is mu + sigma * z.
For sigma = 0 the draw equals mu exactly. -/
def normal_draw (mu sigma z : ℚ) : ℚ := qadd mu (qmul sigma z)

/-- g_rand from src/strose.py lines 4-42, with the drawn deviate z made
explicit.  The maximum is applied first, then the minimum, then the
optional truncation toward zero, exactly as in the source. -/
def g_rand (z : ℚ) (t : TimeReq) : ℚ :=
  let n := normal_draw t.mu t.sigma z
  let n1 :=
    match t.maximum with
    | GBound.unbounded => n
    | GBound.abs b => if n > b then b else n
    | GBound.sigmas k =>
        if n > qadd t.mu (qmul t.sigma k) then qadd t.mu (qmul t.sigma k) else n
  let n2 :=
    match t.minimum with
    | GBound.unbounded => n1
    | GBound.abs b => if n1 < b then b else n1
    | GBound.sigmas k =>
        if n1 < qsub t.mu (qmul t.sigma k) then qsub t.mu (qmul t.sigma k) else n1
  if t.output_integers then qofInt (py_int n2) else n2

/-! ## Workflow entities (src/strose.py lines 105-280) -/

/-- A value passed inside the required_resources iterable.  The source
checks isinstance(r, simpy.Resource); anything else is a nonResource. -/
inductive ResArg where
  | resource : ℕ → ResArg
  | nonResource : String → ResArg

/-- isinstance(r, simpy.Resource) for an element of required_resources. -/
def isResource : ResArg → Bool
  | ResArg.resource _ => true
  | ResArg.nonResource _ => false

/-- CareActivity attributes (src/strose.py lines 193-208). -/
structure CareActivity where
  time_requirements : TimeReq
  required_resources : List ResArg
  label : String
  keep_resources_until_next_activity : Bool

/-- CareActivity.__init__ (lines 198-208): raises unless every element of
required_resources is a simpy Resource.  The failure happens at
construction, before any simulation run. -/
def CareActivity.init (tr : TimeReq) (rs : List ResArg) (label : String) :
    Except String CareActivity :=
  if rs.all isResource then Except.ok ⟨tr, rs, label, true⟩
  else Except.error
    "required_resources must be iterable containing only simpy Resource objects or subclasses thereof"

/-- Need attributes (src/strose.py lines 211-255).  The constructor type
check (care_activity must be a CareActivity) is enforced by typing here. -/
structure Need where
  care_activity : CareActivity
  met : Bool
  met_timestamp : Option ℚ

/-- Patient attributes (src/strose.py lines 105-128). -/
structure Patient where
  label : Option String
  needs : List Need
  journal : List (ℚ × String)

/-- Patient._need_from_activity_label (lines 130-138): a Python dict
lookup activity_universe[label]; an absent key raises KeyError at
construction time. -/
def Patient.need_from_activity_label (label : String)
    (activity_universe : List (String × CareActivity)) : Except String Need :=
  match activity_universe.lookup label with
  | some a => Except.ok ⟨a, false, Option.none⟩
  | Option.none => Except.error ("KeyError: " ++ label)

/-- The list comprehension of Patient.__init__ line 122, evaluated left to
right, propagating the first KeyError. -/
def Patient.needs_from_list :
    List String → List (String × CareActivity) → Except String (List Need)
  | [], _ => Except.ok []
  | l :: ls, u =>
    match Patient.need_from_activity_label l u with
    | Except.error e => Except.error e
    | Except.ok n =>
      match Patient.needs_from_list ls u with
      | Except.error e => Except.error e
      | Except.ok ns => Except.ok (n :: ns)

/-- Patient.__init__ (lines 106-122).  When needs is empty the needs_list
labels are resolved against the activity universe (needs_list elements are
strings by typing, matching the all-isinstance-str check). -/
def Patient.init (needs : List Need) (label : Option String)
    (needs_list : List String) (activity_universe : List (String × CareActivity)) :
    Except String Patient :=
  if needs.isEmpty then
    (Patient.needs_from_list needs_list activity_universe).map (fun ns => ⟨label, ns, []⟩)
  else Except.ok ⟨label, needs, []⟩

/-- Patient._unmet_need_count (lines 145-146): the return VALUE of the
method: sum of 1 for each need whose met flag is not True. -/
def Patient._unmet_need_count (p : Patient) : ℕ :=
  (p.needs.map (fun n => if ¬ (n.met = true) then 1 else 0)).sum

/-- A fragment of Python runtime values, enough to embed the comparison
performed by Patient._needs_met: the expression self._unmet_need_count
denotes the bound method object itself (no call parentheses in the
source), which is then compared with == to the int 0. -/
inductive PyVal where
  | intVal : ℤ → PyVal
  | boundMethod : String → PyVal

/-- Python == on these values: an int never equals a bound method. -/
def pyEq : PyVal → PyVal → Bool
  | PyVal.intVal a, PyVal.intVal b => a == b
  | PyVal.boundMethod a, PyVal.boundMethod b => a == b
  | _, _ => false

/-- Patient._needs_met (lines 148-149): return self._unmet_need_count == 0.
The left operand is the bound method object, not its return value. -/
def Patient._needs_met (_p : Patient) : Bool :=
  pyEq (PyVal.boundMethod "_unmet_need_count") (PyVal.intVal 0)

/-- The needs_met property (line 165). -/
def Patient.needs_met (p : Patient) : Bool :=
  p._needs_met

/-- SimulatedUnit attributes (src/strose.py lines 265-274). -/
structure SimulatedUnit where
  patients : List Patient
  resources : List (String × ℕ)
  care_activities : List (String × CareActivity)

/-- SimulatedUnit.__init__ (lines 266-274): line 273 assigns the literal
empty dict to self.care_activities, ignoring the argument. -/
def SimulatedUnit.init (resources : List (String × ℕ))
    (care_activities : List (String × CareActivity)) : SimulatedUnit :=
  { patients := [], resources := resources, care_activities := [] }

/-! ## Discrete-event kernel, modelled from the spec

Modelled from the spec: the simpy event queue / clock (spec 4.1), FIFO
resource pools (spec 4.2, 4.3) and the conjunctive wait (spec 4.4) are not
part of this repository, so they are modelled here from the spec words:
events carry a time and a monotonically increasing sequence number and are
dispatched earliest time first, FIFO among equal times; a pool grants a
request immediately when in-use is below capacity and otherwise appends it
to a FIFO wait queue; a release grants the head of the wait queue; a
conjunctive wait resolves exactly when every member request has been
granted, immediately and without suspending when all are granted at
construction.  The patient workflow run over this kernel is translated
from SimulatedUnit.provide_care (src/strose.py lines 283-322). -/

/-- One pool created by gen_resource_universe: a capacity, the in-use
count, and the FIFO queue of pending requests (patientId, requestIndex). -/
structure PoolState where
  capacity : ℕ
  inUse : ℕ
  waitQueue : List (ℕ × ℕ)

instance : Inhabited PoolState := ⟨⟨0, 0, []⟩⟩

/-- Where a patient process stands in the provide_care loop. -/
inductive Phase where
  | ready : Phase
  | waitingAll : ℕ → List (ℕ × Bool) → Phase
  | inService : ℕ → Phase
  | done : Phase

/-- Per-patient process state: met flags and met timestamps for the needs,
the journal (timestamp, entry), the last status string, and the phase. -/
structure ProcState where
  met : List Bool
  metTs : List (Option ℚ)
  journal : List (ℚ × String)
  status : String
  phase : Phase

instance : Inhabited ProcState := ⟨⟨[], [], [], "", Phase.ready⟩⟩

/-- Kinds of scheduled events: the initial spawn of a patient process, the
resumption after a conjunctive wait resolves, and the end of a service
timeout for need k. -/
inductive EvKind where
  | start : EvKind
  | resume : EvKind
  | timeoutEnd : ℕ → EvKind

/-- A scheduled event (spec 4.1): time, insertion sequence number for the
FIFO tie-break, owning patient, kind. -/
structure Ev where
  time : ℚ
  seq : ℕ
  pid : ℕ
  kind : EvKind

/-- Dispatch order on events: earlier time first, FIFO among equal times. -/
def evLE (a b : Ev) : Prop :=
  a.time < b.time ∨ (a.time = b.time ∧ a.seq ≤ b.seq)

instance : DecidableRel evLE := fun a b => by
  unfold evLE; infer_instance

instance : IsTotal Ev evLE := by
  constructor
  intro a b
  rcases lt_trichotomy a.time b.time with h | h | h
  · exact Or.inl (Or.inl h)
  · rcases Nat.le_total a.seq b.seq with hs | hs
    · exact Or.inl (Or.inr ⟨h, hs⟩)
    · exact Or.inr (Or.inr ⟨h.symm, hs⟩)
  · exact Or.inr (Or.inl h)

instance : IsTrans Ev evLE := by
  constructor
  intro a b c hab hbc
  rcases hab with h1 | ⟨e1, s1⟩
  · rcases hbc with h2 | ⟨e2, s2⟩
    · exact Or.inl (h1.trans h2)
    · exact Or.inl (e2 ▸ h1)
  · rcases hbc with h2 | ⟨e2, s2⟩
    · exact Or.inl (e1 ▸ h2)
    · exact Or.inr ⟨e1.trans e2, s1.trans s2⟩

/-- Instrumentation trace of kernel-level actions, used to state the
resource-discipline properties: a request of patient pid for its need k
(request index i) granted at time t; service started / timeout completed;
a held request released. -/
inductive Act where
  | granted : ℕ → ℕ → ℕ → ℚ → Act
  | started : ℕ → ℕ → ℚ → Act
  | ended : ℕ → ℕ → ℚ → Act
  | released : ℕ → ℕ → ℕ → ℚ → Act
deriving DecidableEq

/-- The whole simulation state.  draws is the module-global numpy
generator: a stream of standard-normal deviates with a cursor. -/
structure SimState where
  now : ℚ
  seqCtr : ℕ
  draws : ℕ → ℚ
  rngIdx : ℕ
  queue : List Ev
  pools : List PoolState
  procs : List ProcState
  log : List Act
  crashed : Bool

/-- One care activity as resolved by gen_activity_universe: label, time
requirements, required resource pools by index, in configuration order. -/
structure ActivityCfg where
  label : String
  time_requirements : TimeReq
  required_resources : List ℕ

instance : Inhabited ActivityCfg := ⟨⟨"", ⟨0, 0, GBound.unbounded, GBound.unbounded, true⟩, []⟩⟩

/-- A whole scenario: pool capacities by index, the activity universe, and
each patient's ordered needs as activity indices. -/
structure SimConfig where
  capacities : List ℕ
  activities : List ActivityCfg
  patients : List (List ℕ)

/-- The activity behind need k of patient pid. -/
def SimConfig.needAct (cfg : SimConfig) (pid k : ℕ) : ActivityCfg :=
  cfg.activities.getD ((cfg.patients.getD pid []).getD k 0) default

/-- The pools need k of patient pid must acquire, in the order they are
listed in the configuration (the order of line 300 of the source). -/
def reqPools (cfg : SimConfig) (pid k : ℕ) : List ℕ :=
  (cfg.needAct pid k).required_resources

/-- Number of requests issued for need k of patient pid. -/
def reqCount (cfg : SimConfig) (pid k : ℕ) : ℕ :=
  (reqPools cfg pid k).length

/-- Update one position of a list, identity out of range. -/
def updAt : List α → ℕ → (α → α) → List α
  | [], _, _ => []
  | x :: xs, 0, f => f x :: xs
  | x :: xs, n + 1, f => x :: updAt xs n f

/-- Insert an event in dispatch order (spec 4.1). -/
def schedule (s : SimState) (t : ℚ) (pid : ℕ) (k : EvKind) : SimState :=
  { s with
    queue := List.orderedInsert evLE ⟨t, s.seqCtr, pid, k⟩ s.queue,
    seqCtr := s.seqCtr + 1 }

/-- scheduleAfter (spec 4.1): a negative delay is InvalidDuration; the
simpy timeout raises and the run aborts, modelled by the crashed flag. -/
def scheduleAfter (s : SimState) (d : ℚ) (pid : ℕ) (k : EvKind) : SimState :=
  if d < 0 then { s with crashed := true } else schedule s (qadd s.now d) pid k

/-- Patient.status_update (src/strose.py lines 172-184): always overwrites
the status string; appends (timestamp, status) to the journal only when
the journal flag is set.  Logger-only formatting is omitted: the tests run
with logger=None, so it has no observable effect. -/
def statusUpdate (s : SimState) (pid : ℕ) (st : String) (jflag : Bool) (ts : ℚ) :
    SimState :=
  { s with
    procs := updAt s.procs pid (fun p =>
      { p with
        status := st,
        journal := if jflag then p.journal ++ [(ts, st)] else p.journal }) }

/-- Append to the instrumentation trace. -/
def logAct (s : SimState) (a : Act) : SimState :=
  { s with log := s.log ++ [a] }

/-- Overwrite a patient's phase. -/
def setPhase (s : SimState) (pid : ℕ) (ph : Phase) : SimState :=
  { s with procs := updAt s.procs pid (fun p => { p with phase := ph }) }

/-- Need._meet (src/strose.py lines 247-249) for need k of patient pid. -/
def setNeedMet (s : SimState) (pid k : ℕ) (ts : ℚ) : SimState :=
  { s with
    procs := updAt s.procs pid (fun p =>
      { p with met := updAt p.met k (fun _ => true),
               metTs := updAt p.metTs k (fun _ => some ts) }) }

/-- Resource.request (spec 4.3) for request index i of need k of patient
pid against pool q: grant immediately when in-use is below capacity,
otherwise join the FIFO wait queue. -/
def acquireOne (s : SimState) (pid k i q : ℕ) : SimState × Bool :=
  let ps := s.pools.getD q default
  if ps.inUse < ps.capacity then
    (logAct { s with pools := updAt s.pools q (fun p => { p with inUse := p.inUse + 1 }) }
      (Act.granted pid k i s.now), true)
  else
    ({ s with pools := updAt s.pools q (fun p => { p with waitQueue := p.waitQueue ++ [(pid, i)] }) },
     false)

/-- The request comprehension of line 300: one request per pool of the
activity, issued in the listed order; returns the request list as
(pool, granted) pairs. -/
def issueReqs (pid k : ℕ) : SimState → List ℕ → ℕ → SimState × List (ℕ × Bool)
  | s, [], _ => (s, [])
  | s, q :: qs, i =>
    let r := acquireOne s pid k i q
    let rest := issueReqs pid k r.1 qs (i + 1)
    (rest.1, (q, r.2) :: rest.2)

/-- Grant the popped wait-queue entry (pid, i) of pool q: mark the request
granted and, when it was the last ungranted member of the conjunctive
wait, schedule the owner to resume at the current time (spec 4.3, 4.4). -/
def grantTo (s : SimState) (pid i : ℕ) : SimState :=
  match (s.procs.getD pid default).phase with
  | Phase.waitingAll k reqs =>
    let reqs2 := updAt reqs i (fun r => (r.1, true))
    let s1 := logAct s (Act.granted pid k i s.now)
    let s2 := setPhase s1 pid (Phase.waitingAll k reqs2)
    if reqs2.all (fun r => r.2) then schedule s2 s.now pid EvKind.resume else s2
  | _ => s

/-- Grant queued requests of pool q while capacity is available
(spec 4.3), at most waitQueue.length times. -/
def cascadeAux (q : ℕ) : ℕ → SimState → SimState
  | 0, s => s
  | fuel + 1, s =>
    let ps := s.pools.getD q default
    if ps.inUse < ps.capacity then
      match ps.waitQueue with
      | [] => s
      | (pid, i) :: rest =>
        let s1 := { s with pools := updAt s.pools q (fun p =>
          { p with inUse := p.inUse + 1, waitQueue := rest }) }
        cascadeAux q fuel (grantTo s1 pid i)
    else s

/-- Resource.release (spec 4.3) on pool q: decrement in-use, then grant
from the wait queue while capacity is available. -/
def releaseOne (s : SimState) (q : ℕ) : SimState :=
  let s1 := { s with pools := updAt s.pools q (fun p => { p with inUse := p.inUse - 1 }) }
  cascadeAux q ((s1.pools.getD q default).waitQueue.length) s1

/-- The release comprehension of line 319: release every request of need k
in the listed pool order. -/
def releaseAll (pid k : ℕ) : SimState → List ℕ → ℕ → SimState
  | s, [], _ => s
  | s, q :: qs, i =>
    let s1 := logAct s (Act.released pid k i s.now)
    releaseAll pid k (releaseOne s1 q) qs (i + 1)

/-- One call of g_rand as the source performs it: the deviate is read
from the module-global generator held in the simulation state (there is
no argument through which a caller could supply a random source), and the
cursor advances. -/
def sampleTimeout (s : SimState) (tr : TimeReq) : ℚ × SimState :=
  (g_rand (s.draws s.rngIdx) tr, { s with rngIdx := s.rngIdx + 1 })

/-- Lines 308-309 of provide_care: journal the start transition, then draw
the service duration with g_rand(**n.time_requirements) from the global
generator, then suspend on the timeout.  A negative sampled duration makes
the simpy timeout raise (crash). -/
def startService (cfg : SimConfig) (s : SimState) (pid k : ℕ) : SimState :=
  let s1 := statusUpdate s pid ((cfg.needAct pid k).label ++ ":start") true s.now
  let ds := sampleTimeout s1 (cfg.needAct pid k).time_requirements
  let s2 := ds.2
  let d := ds.1
  let s3 := logAct s2 (Act.started pid k s2.now)
  let s4 := setPhase s3 pid (Phase.inService k)
  scheduleAfter s4 d pid (EvKind.timeoutEnd k)

/-- Index of the first unmet need (get_next_unmet_need, lines 154-159). -/
def nextUnmet (p : ProcState) : Option ℕ :=
  List.findIdx? (fun b => !b) p.met

/-- The top of the while loop of provide_care (lines 285-304): when no
unmet need remains, perform the final status_update of line 322, whose
journal flag defaults to False, and terminate.  Otherwise journal the
queue transition, issue all resource requests in configured order, and
either start service at once (conjunctive wait already resolved) or
suspend until the last grant. -/
def beginNeed (cfg : SimConfig) (s : SimState) (pid : ℕ) : SimState :=
  match nextUnmet (s.procs.getD pid default) with
  | Option.none =>
    setPhase (statusUpdate s pid "Complete" false s.now) pid Phase.done
  | some k =>
    let s1 := statusUpdate s pid ((cfg.needAct pid k).label ++ ":queue") true s.now
    let r := issueReqs pid k s1 (reqPools cfg pid k) 0
    if r.2.all (fun x => x.2) then startService cfg r.1 pid k
    else setPhase r.1 pid (Phase.waitingAll k r.2)

/-- Lines 310-320 of provide_care: the timeout for need k has elapsed;
record the met timestamp, journal the end transition, release every held
request, then continue with the next unmet need. -/
def finishService (cfg : SimConfig) (s : SimState) (pid k : ℕ) : SimState :=
  let s1 := setNeedMet s pid k s.now
  let s2 := logAct s1 (Act.ended pid k s1.now)
  let s3 := statusUpdate s2 pid ((cfg.needAct pid k).label ++ ":end") true s2.now
  let s4 := releaseAll pid k s3 (reqPools cfg pid k) 0
  beginNeed cfg s4 pid

/-- Dispatch the earliest pending event (spec 4.1): advance the clock to
its time and run the owning process until its next suspension point.  A
resume event starts service only when every member request of the
conjunctive wait is granted (spec 4.4: it resolves exactly once, when the
last member is granted). -/
def step (cfg : SimConfig) (s : SimState) : SimState :=
  match s.queue with
  | [] => s
  | e :: rest =>
    let s1 := { s with queue := rest, now := e.time }
    match e.kind with
    | EvKind.start => beginNeed cfg s1 e.pid
    | EvKind.resume =>
      match (s1.procs.getD e.pid default).phase with
      | Phase.waitingAll k reqs =>
        if reqs.all (fun r => r.2) then startService cfg s1 e.pid k else s1
      | _ => s1
    | EvKind.timeoutEnd k => finishService cfg s1 e.pid k

/-- Run until the event queue is empty or the run crashed, with fuel. -/
def runAux (cfg : SimConfig) : ℕ → SimState → SimState
  | 0, s => s
  | fuel + 1, s =>
    if s.crashed then s
    else
      match s.queue with
      | [] => s
      | _ :: _ => runAux cfg fuel (step cfg s)

/-- The initial state: empty pools at their capacities, one process per
patient spawned at time 0 in list order, exactly as run_simulation in
src/test_strose.py schedules them. -/
def initState (cfg : SimConfig) (draws : ℕ → ℚ) : SimState :=
  (List.range cfg.patients.length).foldl (fun s i => schedule s 0 i EvKind.start)
    { now := 0, seqCtr := 0, draws := draws, rngIdx := 0, queue := [],
      pools := cfg.capacities.map (fun c => ⟨c, 0, []⟩),
      procs := cfg.patients.map (fun ns =>
        ⟨ns.map (fun _ => false), ns.map (fun _ => Option.none), [], "", Phase.ready⟩),
      log := [], crashed := false }

/-- A whole simulation run. -/
def runSim (cfg : SimConfig) (draws : ℕ → ℚ) (fuel : ℕ) : SimState :=
  runAux cfg fuel (initState cfg draws)

/-! ## The journal flattening used by the tests -/

/-- One row of extract_event_data (src/strose.py lines 77-102). -/
structure EventDatum where
  patient : ℕ
  entry : String
  timestamp : ℚ

/-- extract_event_data: patients in list order, each journal in order. -/
def extract_event_data (procs : List ProcState) : List EventDatum :=
  (procs.enum.map (fun pe => pe.2.journal.map (fun e => ⟨pe.1, e.2, e.1⟩))).flatten

/-- The recovery:end timestamps in flattened order, as read off by
TestBottleneckedSimulation (df filter on entry == recovery:end). -/
def finishTimes (procs : List ProcState) : List ℚ :=
  (extract_event_data procs).filterMap
    (fun d => if d.entry = "recovery:end" then some d.timestamp else Option.none)

/-! ## The two test scenarios (src/test_strose.py) -/

/-- The all-zero deviate stream; with sigma = 0 any stream gives the same
run, see the determinism theorems below. -/
def zeroDraws : ℕ → ℚ := fun _ => 0

/-- The three activities shared by both test classes: time requirements
mu only (sigma 0, no bounds, integer output), one pool each. -/
def testActivities : List ActivityCfg :=
  [ ⟨"preop", { mu := 30 }, [0]⟩,
    ⟨"procedure", { mu := 90 }, [1]⟩,
    ⟨"recovery", { mu := 60 }, [2]⟩ ]

/-- TestNoWaitSimulation: capacity 5 per pool, 5 patients, needs
preop, procedure, recovery. -/
def cfgA : SimConfig :=
  { capacities := [5, 5, 5],
    activities := testActivities,
    patients := [[0, 1, 2], [0, 1, 2], [0, 1, 2], [0, 1, 2], [0, 1, 2]] }

/-- TestBottleneckedSimulation: capacity 1 per pool, 5 patients, needs
preop, procedure, recovery. -/
def cfgB : SimConfig :=
  { capacities := [1, 1, 1],
    activities := testActivities,
    patients := [[0, 1, 2], [0, 1, 2], [0, 1, 2], [0, 1, 2], [0, 1, 2]] }

/-- The order in which line 300 of the source issues the acquire requests
of one activity: exactly the configured required_resources order. -/
def requestOrder (a : ActivityCfg) : List ℕ :=
  a.required_resources

/-- A journal entry that records final completion, carrying the status
string of the line 322 update. -/
def isFinalCompletion (e : ℚ × String) : Prop :=
  e.2 = "Complete"

instance (e : ℚ × String) : Decidable (isFinalCompletion e) := by
  unfold isFinalCompletion; infer_instance

/-! ## Predicates for the run-wide properties -/

/-- Every journal entry of every patient contains a colon (all journaled
transitions are label:queue, label:start or label:end records). -/
def journalsOK (s : SimState) : Prop :=
  ∀ pid : ℕ, ∀ e ∈ (s.procs.getD pid default).journal, ':' ∈ e.2.data

/-- All grants for need k of patient pid are on the trace with times at
most t. -/
def grantsAll (cfg : SimConfig) (s : SimState) (pid k : ℕ) (t : ℚ) : Prop :=
  ∀ j, j < reqCount cfg pid k → ∃ t2, t2 ≤ t ∧ Act.granted pid k j t2 ∈ s.log

/-- Resource discipline on the trace: every release of a request of need
k of patient pid at time t happens at the very time the service timeout
of that need completed, and only once every request of the need had been
granted (at times at most t). -/
def releaseDiscipline (cfg : SimConfig) (s : SimState) : Prop :=
  ∀ pid k i t, Act.released pid k i t ∈ s.log →
    Act.ended pid k t ∈ s.log ∧ grantsAll cfg s pid k t

/-- Every pending timeoutEnd event already has all its grants logged. -/
def evTimeoutOK (cfg : SimConfig) (s : SimState) : Prop :=
  ∀ e ∈ s.queue, ∀ k, e.kind = EvKind.timeoutEnd k →
    grantsAll cfg s e.pid k e.time

/-- A waiting process's granted flags are truthful: phase waitingAll
carries one flag per required pool, and every set flag has its grant on
the trace no later than now. -/
def flagsOK (cfg : SimConfig) (s : SimState) : Prop :=
  ∀ pid k reqs, (s.procs.getD pid default).phase = Phase.waitingAll k reqs →
    reqs.length = reqCount cfg pid k ∧
    ∀ i, i < reqs.length → (reqs.getD i (0, false)).2 = true →
      ∃ t2, t2 ≤ s.now ∧ Act.granted pid k i t2 ∈ s.log

/-- The event queue is sorted in dispatch order. -/
def queueSorted (s : SimState) : Prop :=
  s.queue.Sorted evLE

/-- No pending event lies in the past. -/
def queueTimeLB (s : SimState) : Prop :=
  ∀ e ∈ s.queue, s.now ≤ e.time

/-- The inductive invariant of the kernel. -/
structure SimInv (cfg : SimConfig) (s : SimState) : Prop where
  sorted : queueSorted s
  timeLB : queueTimeLB s
  discipline : releaseDiscipline cfg s
  evOK : evTimeoutOK cfg s
  flags : flagsOK cfg s

/-- Replace the module-global generator stream. -/
def setDraws (s : SimState) (f : ℕ → ℚ) : SimState :=
  { s with draws := f }

/-- Every activity of the configuration has zero variance. -/
def allSigma0 (cfg : SimConfig) : Prop :=
  ∀ a ∈ cfg.activities, a.time_requirements.sigma = 0

/-! ## Concrete objects used by witnesses and counterexamples -/

/-- A sample validated activity (the preop stage). -/
def wActivity : CareActivity :=
  ⟨⟨30, 0, GBound.unbounded, GBound.unbounded, true⟩, [ResArg.resource 0], "preop", true⟩

/-- A patient whose single need is already met. -/
def wPatient : Patient :=
  ⟨some "p0", [⟨wActivity, true, some 30⟩], []⟩

/-- An activity listing pools 0 then 1. -/
def actA : ActivityCfg :=
  ⟨"imaging", ⟨10, 0, GBound.unbounded, GBound.unbounded, true⟩, [0, 1]⟩

/-- An activity listing the same pools as actA in the opposite order. -/
def actB : ActivityCfg :=
  ⟨"scan", ⟨10, 0, GBound.unbounded, GBound.unbounded, true⟩, [1, 0]⟩

/-- A two-pool state in which both requests of actA or actB are free. -/
def stTwoPools : SimState :=
  initState ⟨[2, 2], [actA, actB], [[0], [1]]⟩ zeroDraws

/-- The journal of patient pid in state s. -/
def jproj (s : SimState) (pid : ℕ) : List (ℚ × String) :=
  (s.procs.getD pid default).journal

instance (cfg : SimConfig) : Decidable (allSigma0 cfg) := by
  unfold allSigma0; infer_instance

/-! ## Bridge lemmas for the kernel-reducible arithmetic -/

theorem qadd_eq (a b : ℚ) : qadd a b = a + b := by
  rw [qadd, Rat.add_def, Rat.normalize_eq_mkRat]

theorem qsub_eq (a b : ℚ) : qsub a b = a - b := by
  rw [qsub, Rat.sub_def, Rat.normalize_eq_mkRat]

theorem qmul_eq (a b : ℚ) : qmul a b = a * b := by
  rw [qmul, Rat.mul_def, Rat.normalize_eq_mkRat]

theorem qofInt_eq (n : ℤ) : qofInt n = (n : ℚ) :=
  Rat.mkRat_one n

/-- py_int agrees with truncation toward zero: floor for nonnegative
arguments, ceil for negative ones, exactly Python int(). -/
theorem py_int_eq_floor_ceil (q : ℚ) : py_int q = if 0 ≤ q then ⌊q⌋ else ⌈q⌉ := by
  unfold py_int
  rcases le_or_lt 0 q with h | h
  · rw [if_pos h, Rat.floor_def,
      Int.tdiv_eq_ediv (Rat.num_nonneg.mpr h) (Int.natCast_nonneg _)]
  · rw [if_neg (not_le.mpr h)]
    have hc : ⌈q⌉ = -⌊-q⌋ := by rw [← Int.ceil_neg, neg_neg]
    rw [hc, Rat.floor_def, Rat.neg_num, Rat.neg_den]
    have h1 : (0 : ℤ) ≤ -q.num := by
      have h2 := @Rat.num_nonneg (-q)
      rw [Rat.neg_num] at h2
      exact h2.mpr (neg_nonneg.mpr h.le)
    rw [← Int.tdiv_eq_ediv h1 (Int.natCast_nonneg _), Int.neg_tdiv, neg_neg]

/-- Truncation toward zero moves a value by strictly less than one. -/
theorem py_int_close (q : ℚ) : q - 1 < qofInt (py_int q) ∧ qofInt (py_int q) < q + 1 := by
  rw [qofInt_eq, py_int_eq_floor_ceil]
  split
  · constructor
    · exact Int.sub_one_lt_floor q
    · have h := Int.floor_le q
      linarith
  · constructor
    · have h := Int.le_ceil q
      linarith
    · exact Int.ceil_lt_add_one q

/-! ## C1 and C7: the two deterministic scenarios -/

/-- C1: in the full-serialization scenario (three pools of capacity 1,
five patients with needs preop, procedure, recovery of durations 30, 90,
60, zero variance, all spawned at time 0) the recovery:end journal
timestamps, flattened in patient-arrival order, are exactly
180, 270, 360, 450, 540. -/
theorem C1_bottleneck_finish_times :
    finishTimes (runSim cfgB zeroDraws 200).procs = [180, 270, 360, 450, 540] := by
  decide

/-- C7: in the no-contention scenario (capacity 5 per pool, five
patients, durations 30, 90, 60, zero variance, all spawned at time 0)
every patient's recovery:end timestamp is 180, all five finish times are
identical, and the run ends with the clock at 180. -/
theorem C7_nowait_finish_times :
    finishTimes (runSim cfgA zeroDraws 200).procs = [180, 180, 180, 180, 180] ∧
    (runSim cfgA zeroDraws 200).now = 180 :=
  ⟨by decide, by decide⟩

/-! ## C2: the sampler and the global random source -/

/-- C2 counterexample: with every declared argument of g_rand identical,
the sampled value still differs between two ambient generator states: the
randomness enters through the module-global numpy generator held in the
simulation state, not through any parameter of the sampler, so no random
source can be injected at a call. -/
theorem C2_sampler_reads_global_state :
    (sampleTimeout (initState cfgB (fun _ => 0))
        ⟨0, 1, GBound.unbounded, GBound.unbounded, true⟩).1 ≠
      (sampleTimeout (initState cfgB (fun _ => 1))
        ⟨0, 1, GBound.unbounded, GBound.unbounded, true⟩).1 := by
  decide

/-! ## C3: sampler bounds -/

/-- C3 (amended): with truncation disabled, an absolute upper bound b is
respected whenever no lower bound above b is also supplied, a relative
upper bound of k standard deviations likewise caps the sample at
mu + sigma * k whenever no lower bound above that cap is supplied, and
lower bounds (absolute or relative) are always respected; clamping
happens before the optional truncation toward zero, so with truncation
enabled (the default) the returned value is exactly the truncation of
the clamped value and differs from it by strictly less than one. -/
theorem C3_sampler_bounds (z mu sigma b c k m : ℚ) :
    (g_rand z ⟨mu, sigma, GBound.unbounded, GBound.abs b, false⟩ ≤ b) ∧
    (c ≤ b → g_rand z ⟨mu, sigma, GBound.abs c, GBound.abs b, false⟩ ≤ b) ∧
    (mu - sigma * k ≤ b →
      g_rand z ⟨mu, sigma, GBound.sigmas k, GBound.abs b, false⟩ ≤ b) ∧
    (g_rand z ⟨mu, sigma, GBound.unbounded, GBound.sigmas k, false⟩ ≤ mu + sigma * k) ∧
    (c ≤ mu + sigma * k →
      g_rand z ⟨mu, sigma, GBound.abs c, GBound.sigmas k, false⟩ ≤ mu + sigma * k) ∧
    (mu - sigma * m ≤ mu + sigma * k →
      g_rand z ⟨mu, sigma, GBound.sigmas m, GBound.sigmas k, false⟩ ≤ mu + sigma * k) ∧
    (∀ mx, b ≤ g_rand z ⟨mu, sigma, GBound.abs b, mx, false⟩) ∧
    (∀ mx, mu - sigma * k ≤ g_rand z ⟨mu, sigma, GBound.sigmas k, mx, false⟩) ∧
    (∀ mn mx, g_rand z ⟨mu, sigma, mn, mx, true⟩ =
      qofInt (py_int (g_rand z ⟨mu, sigma, mn, mx, false⟩))) ∧
    (∀ mn mx, g_rand z ⟨mu, sigma, mn, mx, false⟩ - 1 < g_rand z ⟨mu, sigma, mn, mx, true⟩ ∧
      g_rand z ⟨mu, sigma, mn, mx, true⟩ < g_rand z ⟨mu, sigma, mn, mx, false⟩ + 1) := by
  refine ⟨?_, ?_, ?_, ?_, ?_, ?_, ?_, ?_, ?_, ?_⟩
  · simp only [g_rand, normal_draw, qadd_eq, qmul_eq]
    split_ifs <;> simp_all
  · intro hcb
    simp only [g_rand, normal_draw, qadd_eq, qmul_eq]
    split_ifs <;> simp_all
  · intro hkb
    simp only [g_rand, normal_draw, qadd_eq, qmul_eq, qsub_eq]
    split_ifs <;> simp_all
  · simp only [g_rand, normal_draw, qadd_eq, qmul_eq]
    split_ifs <;> simp_all
  · intro hck
    simp only [g_rand, normal_draw, qadd_eq, qmul_eq]
    split_ifs <;> simp_all
  · intro hmk
    simp only [g_rand, normal_draw, qadd_eq, qmul_eq, qsub_eq]
    split_ifs <;> simp_all
  · intro mx
    cases mx <;>
      · simp only [g_rand, normal_draw, qadd_eq, qmul_eq, qsub_eq]
        split_ifs <;> simp_all
  · intro mx
    cases mx <;>
      · simp only [g_rand, normal_draw, qadd_eq, qmul_eq, qsub_eq]
        split_ifs <;> simp_all
  · intro mn mx
    rfl
  · intro mn mx
    exact py_int_close (g_rand z ⟨mu, sigma, mn, mx, false⟩)

/-- C3 witness: concrete uses of the bound guarantees, discharging the
consistency hypotheses for the absolute and relative upper bounds. -/
theorem C3_sampler_bounds_witness :
    ((0 : ℚ) ≤ 2 ∧ g_rand 5 ⟨0, 1, GBound.abs 0, GBound.abs 2, false⟩ ≤ 2) ∧
    ((0 : ℚ) - 1 * 3 ≤ 2 ∧ g_rand 5 ⟨0, 1, GBound.sigmas 3, GBound.abs 2, false⟩ ≤ 2) ∧
    ((0 : ℚ) ≤ 0 + 1 * 2 ∧
      g_rand 5 ⟨0, 1, GBound.abs 0, GBound.sigmas 2, false⟩ ≤ 0 + 1 * 2) ∧
    ((0 : ℚ) - 1 * 3 ≤ 0 + 1 * 2 ∧
      g_rand 5 ⟨0, 1, GBound.sigmas 3, GBound.sigmas 2, false⟩ ≤ 0 + 1 * 2) :=
  ⟨⟨by decide, (C3_sampler_bounds 5 0 1 2 0 2 3).2.1 (by decide)⟩,
   ⟨by norm_num, (C3_sampler_bounds 5 0 1 2 0 2 3).2.2.1 (by norm_num)⟩,
   ⟨by norm_num, (C3_sampler_bounds 5 0 1 2 0 2 3).2.2.2.2.1 (by norm_num)⟩,
   ⟨by norm_num, (C3_sampler_bounds 5 0 1 2 0 2 3).2.2.2.2.2.1 (by norm_num)⟩⟩

/-- C3 counterexample: the claim promises the returned sample never
crosses an absolute bound on every call.  With the default truncation a
lower bound of 5/2 is crossed (the clamped value 5/2 truncates to 2),
and with a lower bound above the upper bound the upper bound 1 is
exceeded even untruncated, because the minimum is applied last. -/
theorem C3_sampler_bounds_counterexample :
    (g_rand 0 ⟨mkRat 5 2, 0, GBound.abs (mkRat 5 2), GBound.unbounded, true⟩ = 2 ∧
      (2 : ℚ) < mkRat 5 2) ∧
    (g_rand 0 ⟨0, 0, GBound.abs 5, GBound.abs 1, false⟩ = 5 ∧ (1 : ℚ) < 5) := by
  exact ⟨⟨by decide, by decide⟩, ⟨by decide, by decide⟩⟩

/-! ## C4: request issue order -/

/-- The requests returned by issueReqs target exactly the given pools, in
the given order. -/
theorem issueReqs_pools (pid k : ℕ) :
    ∀ (pools : List ℕ) (s : SimState) (i : ℕ),
      ((issueReqs pid k s pools i).2.map Prod.fst) = pools := by
  intro pools
  induction pools with
  | nil => intro s i; rfl
  | cons q qs ih =>
    intro s i
    simp [issueReqs, ih]

/-- C4 (amended): the acquire requests of an activity are issued in the
order the pools are listed in the activity's required_resources
configuration; no canonical global reordering is applied. -/
theorem C4_requests_in_configured_order (cfg : SimConfig) (pid k : ℕ) (s : SimState) :
    ((issueReqs pid k s (reqPools cfg pid k) 0).2.map Prod.fst) = reqPools cfg pid k ∧
    ∀ a : ActivityCfg, requestOrder a = a.required_resources :=
  ⟨issueReqs_pools pid k _ s 0, fun _ => rfl⟩

/-- C4 counterexample: two activities over the same two pools, listed in
opposite orders, issue their requests in those opposite orders, so the
issue order is not a fixed global ordering independent of the
configuration listing. -/
theorem C4_requests_counterexample :
    requestOrder actA ≠ requestOrder actB ∧
    List.Perm (requestOrder actA) (requestOrder actB) ∧
    (issueReqs 0 0 stTwoPools (requestOrder actA) 0).2.map Prod.fst = [0, 1] ∧
    (issueReqs 0 0 stTwoPools (requestOrder actB) 0).2.map Prod.fst = [1, 0] := by
  exact ⟨by decide, by decide, by decide, by decide⟩

/-! ## C8: construction-time failures -/

/-- When some label of the list is absent from the universe, the
comprehension of Patient.__init__ raises. -/
theorem needs_from_list_error (ls : List String)
    (au : List (String × CareActivity)) (lbl : String)
    (hmem : lbl ∈ ls) (hlk : au.lookup lbl = Option.none) :
    ∃ e, Patient.needs_from_list ls au = Except.error e := by
  induction ls with
  | nil => cases hmem
  | cons x xs ih =>
    rcases List.mem_cons.mp hmem with h | hxs
    · subst h
      refine ⟨"KeyError: " ++ lbl, ?_⟩
      simp [Patient.needs_from_list, Patient.need_from_activity_label, hlk]
    · cases hx : Patient.need_from_activity_label x au with
      | error e => exact ⟨e, by simp [Patient.needs_from_list, hx]⟩
      | ok n =>
        obtain ⟨e, he⟩ := ih hxs
        exact ⟨e, by simp [Patient.needs_from_list, hx, he]⟩

/-- C8: a CareActivity whose required_resources holds a non-Resource
element fails at construction, and a Patient built from a needs_list
naming an activity absent from the activity universe fails at
construction; both are Except errors of the constructors themselves,
raised before any simulation run can start. -/
theorem C8_construction_failures :
    (∀ (tr : TimeReq) (rs : List ResArg) (lbl : String) (r : ResArg),
      r ∈ rs → isResource r = false →
        ∃ e, CareActivity.init tr rs lbl = Except.error e) ∧
    (∀ (needs_list : List String) (au : List (String × CareActivity))
      (lbl : String) (plbl : Option String),
      lbl ∈ needs_list → au.lookup lbl = Option.none →
        ∃ e, Patient.init [] plbl needs_list au = Except.error e) := by
  constructor
  · intro tr rs lbl r hr hnr
    have hall : rs.all isResource = false := by
      cases h : rs.all isResource with
      | false => rfl
      | true =>
        have := List.all_eq_true.mp h r hr
        rw [hnr] at this
        cases this
    exact ⟨"required_resources must be iterable containing only simpy Resource objects or subclasses thereof",
      by simp [CareActivity.init, hall]⟩
  · intro needs_list au lbl plbl hmem hlk
    obtain ⟨e, he⟩ := needs_from_list_error needs_list au lbl hmem hlk
    exact ⟨e, by simp [Patient.init, he, Except.map]⟩

/-- C8 witness: a concrete malformed activity and a concrete unknown
label both fail at construction. -/
theorem C8_construction_failures_witness :
    (∃ e, CareActivity.init ⟨30, 0, GBound.unbounded, GBound.unbounded, true⟩
      [ResArg.nonResource "int"] "x" = Except.error e) ∧
    (∃ e, Patient.init [] (some "p") ["procedure"] [("preop", wActivity)] =
      Except.error e) :=
  ⟨C8_construction_failures.1 _ [ResArg.nonResource "int"] "x" _
      (List.mem_singleton.mpr rfl) rfl,
   C8_construction_failures.2 ["procedure"] [("preop", wActivity)] "procedure"
      (some "p") (List.mem_singleton.mpr rfl) rfl⟩

/-! ## C9: the needs_met property -/

/-- The unmet count really is zero when every need is met. -/
theorem unmet_count_zero (ns : List Need) (h : ∀ n ∈ ns, n.met = true) :
    (ns.map (fun n => if ¬ (n.met = true) then 1 else 0)).sum = 0 := by
  induction ns with
  | nil => rfl
  | cons a t ih =>
    have ha := h a (List.mem_cons_self a t)
    have ht := ih (fun n hn => h n (List.mem_cons_of_mem a hn))
    have hz : (if ¬ (a.met = true) then 1 else 0) = 0 := by simp [ha]
    simp only [List.map_cons, List.sum_cons, hz, ht]

/-- C9: needs_met compares the bound method _unmet_need_count itself to
the int 0, so it returns False for every patient, even one all of whose
needs are met and whose unmet count is 0; completion is not detectable
through needs_met. -/
theorem C9_needs_met_always_false (p : Patient) (h : ∀ n ∈ p.needs, n.met = true) :
    p.needs_met = false ∧ p._unmet_need_count = 0 :=
  ⟨rfl, unmet_count_zero p.needs h⟩

/-- C9 witness: a concrete patient with its one need met. -/
theorem C9_needs_met_always_false_witness :
    wPatient.needs_met = false ∧ wPatient._unmet_need_count = 0 :=
  C9_needs_met_always_false wPatient (by decide)

/-! ## C10: the discarded care_activities argument -/

/-- C10: SimulatedUnit.__init__ assigns the empty mapping to
care_activities whatever argument is passed, so the activity universe is
never reachable through the constructed unit. -/
theorem C10_care_activities_discarded (res : List (String × ℕ))
    (ca : List (String × CareActivity)) :
    (SimulatedUnit.init res ca).care_activities = [] :=
  rfl

/-! ## List update lemmas -/

theorem updAt_length (l : List α) (i : ℕ) (f : α → α) :
    (updAt l i f).length = l.length := by
  induction l generalizing i with
  | nil => rfl
  | cons x xs ih =>
    cases i with
    | zero => rfl
    | succ ii => simp [updAt, ih]

theorem getD_updAt (l : List α) (i j : ℕ) (f : α → α) (d : α) :
    (updAt l i f).getD j d =
      if i = j ∧ j < l.length then f (l.getD j d) else l.getD j d := by
  induction l generalizing i j with
  | nil => simp [updAt]
  | cons x xs ih =>
    cases i with
    | zero =>
      cases j with
      | zero => simp [updAt]
      | succ jj => simp [updAt]
    | succ ii =>
      cases j with
      | zero => simp [updAt]
      | succ jj =>
        simp only [updAt, List.getD_cons_succ, ih, List.length_cons]
        by_cases h1 : ii = jj ∧ jj < xs.length
        · rw [if_pos h1, if_pos ⟨by rw [h1.1], Nat.succ_lt_succ h1.2⟩]
        · rw [if_neg h1, if_neg ?_]
          intro h2
          exact h1 ⟨Nat.succ_injective h2.1, Nat.lt_of_succ_lt_succ h2.2⟩

/-! ## Journal discipline: the colon invariant -/

theorem colon_mem_append (lab suffix : String) (h : ':' ∈ suffix.data) :
    ':' ∈ (lab ++ suffix).data := by
  rw [String.data_append]
  exact List.mem_append.mpr (Or.inr h)

theorem ne_complete_of_colon (s : String) (h : ':' ∈ s.data) : s ≠ "Complete" := by
  intro heq
  subst heq
  revert h
  decide

theorem journalsOK_of_jproj_eq (s1 s2 : SimState)
    (h : ∀ pid, jproj s2 pid = jproj s1 pid) (h1 : journalsOK s1) :
    journalsOK s2 := by
  intro pid e he
  have he2 : e ∈ jproj s2 pid := he
  rw [h pid] at he2
  exact h1 pid e he2

theorem jproj_statusUpdate (s : SimState) (pid : ℕ) (st : String) (jf : Bool)
    (ts : ℚ) (pid2 : ℕ) :
    jproj (statusUpdate s pid st jf ts) pid2 =
      if pid = pid2 ∧ pid2 < s.procs.length then
        (if jf then jproj s pid2 ++ [(ts, st)] else jproj s pid2)
      else jproj s pid2 := by
  unfold jproj statusUpdate
  simp only [getD_updAt]
  split
  · split <;> rfl
  · rfl

theorem journalsOK_statusUpdate_colon (s : SimState) (pid : ℕ) (st : String)
    (jf : Bool) (ts : ℚ) (hst : ':' ∈ st.data) (h : journalsOK s) :
    journalsOK (statusUpdate s pid st jf ts) := by
  intro pid2 e he
  rw [show ((statusUpdate s pid st jf ts).procs.getD pid2 default).journal =
        jproj (statusUpdate s pid st jf ts) pid2 from rfl,
      jproj_statusUpdate] at he
  split at he
  · split at he
    · rcases List.mem_append.mp he with h1 | h1
      · exact h pid2 e h1
      · rcases List.mem_singleton.mp h1 with rfl
        exact hst
    · exact h pid2 e he
  · exact h pid2 e he

theorem journalsOK_statusUpdate_false (s : SimState) (pid : ℕ) (st : String)
    (ts : ℚ) (h : journalsOK s) :
    journalsOK (statusUpdate s pid st false ts) := by
  intro pid2 e he
  rw [show ((statusUpdate s pid st false ts).procs.getD pid2 default).journal =
        jproj (statusUpdate s pid st false ts) pid2 from rfl,
      jproj_statusUpdate] at he
  split at he <;> exact h pid2 e he

theorem jproj_schedule (s : SimState) (t : ℚ) (pid : ℕ) (k : EvKind) (pid2 : ℕ) :
    jproj (schedule s t pid k) pid2 = jproj s pid2 :=
  rfl

theorem jproj_scheduleAfter (s : SimState) (d : ℚ) (pid : ℕ) (k : EvKind) (pid2 : ℕ) :
    jproj (scheduleAfter s d pid k) pid2 = jproj s pid2 := by
  unfold scheduleAfter
  split <;> rfl

theorem jproj_logAct (s : SimState) (a : Act) (pid2 : ℕ) :
    jproj (logAct s a) pid2 = jproj s pid2 :=
  rfl

theorem jproj_setPhase (s : SimState) (pid : ℕ) (ph : Phase) (pid2 : ℕ) :
    jproj (setPhase s pid ph) pid2 = jproj s pid2 := by
  unfold jproj setPhase
  simp only [getD_updAt]
  split <;> rfl

theorem jproj_setNeedMet (s : SimState) (pid k : ℕ) (ts : ℚ) (pid2 : ℕ) :
    jproj (setNeedMet s pid k ts) pid2 = jproj s pid2 := by
  unfold jproj setNeedMet
  simp only [getD_updAt]
  split <;> rfl

theorem jproj_acquireOne (s : SimState) (pid k i q : ℕ) (pid2 : ℕ) :
    jproj (acquireOne s pid k i q).1 pid2 = jproj s pid2 := by
  simp only [acquireOne]
  split <;> rfl

theorem jproj_issueReqs (pid k : ℕ) (pools : List ℕ) :
    ∀ (s : SimState) (i : ℕ) (pid2 : ℕ),
      jproj (issueReqs pid k s pools i).1 pid2 = jproj s pid2 := by
  induction pools with
  | nil => intro s i pid2; rfl
  | cons q qs ih =>
    intro s i pid2
    show jproj (issueReqs pid k (acquireOne s pid k i q).1 qs (i + 1)).1 pid2 = jproj s pid2
    rw [ih, jproj_acquireOne]

theorem jproj_grantTo (s : SimState) (pid i : ℕ) (pid2 : ℕ) :
    jproj (grantTo s pid i) pid2 = jproj s pid2 := by
  unfold grantTo
  split
  · dsimp only
    split
    · rw [jproj_schedule, jproj_setPhase, jproj_logAct]
    · rw [jproj_setPhase, jproj_logAct]
  · rfl

theorem jproj_cascadeAux (q : ℕ) (fuel : ℕ) :
    ∀ (s : SimState) (pid2 : ℕ), jproj (cascadeAux q fuel s) pid2 = jproj s pid2 := by
  induction fuel with
  | zero => intro s pid2; rfl
  | succ n ih =>
    intro s pid2
    unfold cascadeAux
    dsimp only
    split
    · split
      · rfl
      · rw [ih, jproj_grantTo]
        rfl
    · rfl

theorem jproj_releaseOne (s : SimState) (q : ℕ) (pid2 : ℕ) :
    jproj (releaseOne s q) pid2 = jproj s pid2 := by
  unfold releaseOne
  rw [jproj_cascadeAux]
  rfl

theorem jproj_releaseAll (pid k : ℕ) (pools : List ℕ) :
    ∀ (s : SimState) (i : ℕ) (pid2 : ℕ),
      jproj (releaseAll pid k s pools i) pid2 = jproj s pid2 := by
  induction pools with
  | nil => intro s i pid2; rfl
  | cons q qs ih =>
    intro s i pid2
    show jproj (releaseAll pid k (releaseOne (logAct s (Act.released pid k i s.now)) q) qs (i + 1)) pid2 =
      jproj s pid2
    rw [ih, jproj_releaseOne, jproj_logAct]

theorem journalsOK_startService (cfg : SimConfig) (s : SimState) (pid k : ℕ)
    (h : journalsOK s) : journalsOK (startService cfg s pid k) := by
  have h1 : journalsOK (statusUpdate s pid ((cfg.needAct pid k).label ++ ":start") true s.now) :=
    journalsOK_statusUpdate_colon s pid _ true s.now
      (colon_mem_append _ ":start" (by decide)) h
  apply journalsOK_of_jproj_eq _ _ _ h1
  intro pid2
  simp only [startService, sampleTimeout]
  rw [jproj_scheduleAfter, jproj_setPhase, jproj_logAct]
  rfl

theorem journalsOK_beginNeed (cfg : SimConfig) (s : SimState) (pid : ℕ)
    (h : journalsOK s) : journalsOK (beginNeed cfg s pid) := by
  unfold beginNeed
  split
  · have h1 := journalsOK_statusUpdate_false s pid "Complete" s.now h
    apply journalsOK_of_jproj_eq _ _ _ h1
    intro pid2
    rw [jproj_setPhase]
  · rename_i k heq
    have h1 : journalsOK (statusUpdate s pid ((cfg.needAct pid k).label ++ ":queue") true s.now) :=
      journalsOK_statusUpdate_colon s pid _ true s.now
        (colon_mem_append _ ":queue" (by decide)) h
    have h2 : journalsOK (issueReqs pid k
        (statusUpdate s pid ((cfg.needAct pid k).label ++ ":queue") true s.now)
        (reqPools cfg pid k) 0).1 := by
      apply journalsOK_of_jproj_eq _ _ _ h1
      intro pid2
      rw [jproj_issueReqs]
    dsimp only
    split
    · exact journalsOK_startService cfg _ pid _ h2
    · apply journalsOK_of_jproj_eq _ _ _ h2
      intro pid2
      rw [jproj_setPhase]

theorem journalsOK_finishService (cfg : SimConfig) (s : SimState) (pid k : ℕ)
    (h : journalsOK s) : journalsOK (finishService cfg s pid k) := by
  unfold finishService
  dsimp only
  apply journalsOK_beginNeed
  have hmid : journalsOK (statusUpdate
      (logAct (setNeedMet s pid k s.now) (Act.ended pid k s.now)) pid
      ((cfg.needAct pid k).label ++ ":end") true s.now) := by
    apply journalsOK_statusUpdate_colon
    · exact colon_mem_append _ ":end" (by decide)
    · apply journalsOK_of_jproj_eq _ _ _ h
      intro pid2
      rw [jproj_logAct, jproj_setNeedMet]
  apply journalsOK_of_jproj_eq _ _ _ hmid
  intro pid2
  rw [jproj_releaseAll]
  rfl

theorem journalsOK_step (cfg : SimConfig) (s : SimState) (h : journalsOK s) :
    journalsOK (step cfg s) := by
  unfold step
  split
  · exact h
  · split
    · exact journalsOK_beginNeed cfg _ _ h
    · dsimp only
      split
      · split
        · exact journalsOK_startService cfg _ _ _ h
        · exact h
      · exact h
    · exact journalsOK_finishService cfg _ _ _ h

theorem journalsOK_runAux (cfg : SimConfig) (fuel : ℕ) :
    ∀ s : SimState, journalsOK s → journalsOK (runAux cfg fuel s) := by
  induction fuel with
  | zero => intro s h; exact h
  | succ n ih =>
    intro s h
    unfold runAux
    split
    · exact h
    · split
      · exact h
      · exact ih _ (journalsOK_step cfg s h)

theorem procs_foldl_schedule (l : List ℕ) :
    ∀ s0 : SimState,
      (l.foldl (fun s i => schedule s 0 i EvKind.start) s0).procs = s0.procs := by
  induction l with
  | nil => intro s0; rfl
  | cons x xs ih => intro s0; rw [List.foldl_cons, ih]; rfl

theorem journalsOK_initState (cfg : SimConfig) (draws : ℕ → ℚ) :
    journalsOK (initState cfg draws) := by
  intro pid e he
  unfold initState at he
  rw [show ∀ s0 : SimState, ((List.range cfg.patients.length).foldl
        (fun s i => schedule s 0 i EvKind.start) s0).procs = s0.procs
      from fun s0 => procs_foldl_schedule _ s0] at he
  simp only [List.getD_eq_getElem?_getD, List.getElem?_map] at he
  cases hx : cfg.patients[pid]? with
  | none => rw [hx] at he; cases he
  | some x => rw [hx] at he; cases he

theorem journalsOK_runSim (cfg : SimConfig) (draws : ℕ → ℚ) (fuel : ℕ) :
    journalsOK (runSim cfg draws fuel) :=
  journalsOK_runAux cfg fuel _ (journalsOK_initState cfg draws)

/-! ## C5: no completion record is journaled -/

/-- C5 (amended): when no unmet Need remains the process performs the
final status_update of line 322 with its journal flag left at the default
False, so the patient's status ends as Complete but no completion entry
is appended to the journal: in every run every journal entry is a
stage-transition record containing a colon and is never the string
Complete; in the bottleneck scenario the finished patient's journal ends
with the recovery:end record while its status is Complete. -/
theorem C5_completion_not_journaled :
    (∀ (cfg : SimConfig) (draws : ℕ → ℚ) (fuel pid : ℕ),
      ∀ e ∈ ((runSim cfg draws fuel).procs.getD pid default).journal,
        ':' ∈ e.2.data ∧ e.2 ≠ "Complete") ∧
    ((runSim cfgB zeroDraws 200).procs.getD 4 default).status = "Complete" ∧
    ((runSim cfgB zeroDraws 200).procs.getD 4 default).journal.getLast? =
      some (540, "recovery:end") := by
  refine ⟨?_, by decide, by decide⟩
  intro cfg draws fuel pid e he
  have hc := journalsOK_runSim cfg draws fuel pid e he
  exact ⟨hc, ne_complete_of_colon _ hc⟩

/-- C5 witness: a concrete journal entry of the bottleneck run, with the
guarantees instantiated on it. -/
theorem C5_completion_not_journaled_witness :
    (0, "preop:queue") ∈ ((runSim cfgB zeroDraws 200).procs.getD 0 default).journal ∧
    (':' ∈ "preop:queue".data ∧ "preop:queue" ≠ "Complete") :=
  ⟨by decide, C5_completion_not_journaled.1 cfgB zeroDraws 200 0 (0, "preop:queue") (by decide)⟩

/-- C5 counterexample: patient 4 of the bottleneck run has every need met
and status Complete, yet the last element of its journal is the
recovery:end stage record, not a final-completion record. -/
theorem C5_completion_not_journaled_counterexample :
    ((runSim cfgB zeroDraws 200).procs.getD 4 default).met = [true, true, true] ∧
    ((runSim cfgB zeroDraws 200).procs.getD 4 default).status = "Complete" ∧
    ((runSim cfgB zeroDraws 200).procs.getD 4 default).journal.getLast? =
      some (540, "recovery:end") ∧
    ¬ isFinalCompletion (540, "recovery:end") :=
  ⟨by decide, by decide, by decide, by decide⟩

/-! ## C2: determinism lemmas -/

/-- With zero variance the sampled value does not depend on the deviate. -/
theorem g_rand_sigma_zero (z z2 : ℚ) (tr : TimeReq) (h : tr.sigma = 0) :
    g_rand z tr = g_rand z2 tr := by
  simp only [g_rand, normal_draw, h, qmul_eq, zero_mul]

/-- Under allSigma0 every activity reached through needAct has sigma 0,
including the out-of-range default. -/
theorem needAct_sigma_zero (cfg : SimConfig) (h : allSigma0 cfg) (pid k : ℕ) :
    (cfg.needAct pid k).time_requirements.sigma = 0 := by
  unfold SimConfig.needAct
  rw [List.getD_eq_getElem?_getD]
  cases hx : cfg.activities[(cfg.patients.getD pid []).getD k 0]? with
  | none => rfl
  | some a =>
    have ha : a ∈ cfg.activities := List.getElem?_mem hx
    simpa using h a ha

theorem setDraws_schedule (s : SimState) (f : ℕ → ℚ) (t : ℚ) (pid : ℕ) (k : EvKind) :
    schedule (setDraws s f) t pid k = setDraws (schedule s t pid k) f :=
  rfl

theorem setDraws_statusUpdate (s : SimState) (f : ℕ → ℚ) (pid : ℕ) (st : String)
    (jf : Bool) (ts : ℚ) :
    statusUpdate (setDraws s f) pid st jf ts = setDraws (statusUpdate s pid st jf ts) f :=
  rfl

theorem setDraws_logAct (s : SimState) (f : ℕ → ℚ) (a : Act) :
    logAct (setDraws s f) a = setDraws (logAct s a) f :=
  rfl

theorem setDraws_setPhase (s : SimState) (f : ℕ → ℚ) (pid : ℕ) (ph : Phase) :
    setPhase (setDraws s f) pid ph = setDraws (setPhase s pid ph) f :=
  rfl

theorem setDraws_setNeedMet (s : SimState) (f : ℕ → ℚ) (pid k : ℕ) (ts : ℚ) :
    setNeedMet (setDraws s f) pid k ts = setDraws (setNeedMet s pid k ts) f :=
  rfl

theorem setDraws_acquireOne (s : SimState) (f : ℕ → ℚ) (pid k i q : ℕ) :
    acquireOne (setDraws s f) pid k i q =
      (setDraws (acquireOne s pid k i q).1 f, (acquireOne s pid k i q).2) := by
  simp only [acquireOne, setDraws]
  split <;> rfl

theorem setDraws_issueReqs (pid k : ℕ) (pools : List ℕ) :
    ∀ (s : SimState) (f : ℕ → ℚ) (i : ℕ),
      issueReqs pid k (setDraws s f) pools i =
        (setDraws (issueReqs pid k s pools i).1 f, (issueReqs pid k s pools i).2) := by
  induction pools with
  | nil => intro s f i; rfl
  | cons q qs ih =>
    intro s f i
    show (let r := acquireOne (setDraws s f) pid k i q
          let rest := issueReqs pid k r.1 qs (i + 1)
          (rest.1, (q, r.2) :: rest.2)) = _
    rw [setDraws_acquireOne]
    dsimp only
    rw [ih]
    rfl

theorem setDraws_grantTo (s : SimState) (f : ℕ → ℚ) (pid i : ℕ) :
    grantTo (setDraws s f) pid i = setDraws (grantTo s pid i) f := by
  unfold grantTo
  have hp : ((setDraws s f).procs.getD pid default).phase =
      (s.procs.getD pid default).phase := rfl
  cases hph : (s.procs.getD pid default).phase with
  | waitingAll k reqs =>
    rw [show (setDraws s f).procs = s.procs from rfl, hph]
    dsimp only
    split <;> rfl
  | ready => rw [show (setDraws s f).procs = s.procs from rfl, hph]
  | inService k => rw [show (setDraws s f).procs = s.procs from rfl, hph]
  | done => rw [show (setDraws s f).procs = s.procs from rfl, hph]

theorem setDraws_cascadeAux (q : ℕ) (fuel : ℕ) :
    ∀ (s : SimState) (f : ℕ → ℚ),
      cascadeAux q fuel (setDraws s f) = setDraws (cascadeAux q fuel s) f := by
  induction fuel with
  | zero => intro s f; rfl
  | succ n ih =>
    intro s f
    unfold cascadeAux
    rw [show (setDraws s f).pools = s.pools from rfl]
    dsimp only
    split
    · split
      · rfl
      · rw [show ({ setDraws s f with pools := _ } : SimState) = setDraws { s with pools := _ } f from rfl]
        rw [setDraws_grantTo, ih]
    · rfl

theorem setDraws_releaseOne (s : SimState) (f : ℕ → ℚ) (q : ℕ) :
    releaseOne (setDraws s f) q = setDraws (releaseOne s q) f := by
  unfold releaseOne
  rw [show ({ setDraws s f with pools := _ } : SimState) = setDraws { s with pools := _ } f from rfl]
  rw [setDraws_cascadeAux]
  rfl

theorem setDraws_releaseAll (pid k : ℕ) (pools : List ℕ) :
    ∀ (s : SimState) (f : ℕ → ℚ) (i : ℕ),
      releaseAll pid k (setDraws s f) pools i = setDraws (releaseAll pid k s pools i) f := by
  induction pools with
  | nil => intro s f i; rfl
  | cons q qs ih =>
    intro s f i
    show releaseAll pid k (releaseOne (logAct (setDraws s f) _) q) qs (i + 1) = _
    rw [setDraws_logAct, setDraws_releaseOne, ih]
    rfl

theorem setDraws_startService (cfg : SimConfig) (h : allSigma0 cfg)
    (s : SimState) (f : ℕ → ℚ) (pid k : ℕ) :
    startService cfg (setDraws s f) pid k = setDraws (startService cfg s pid k) f := by
  simp only [startService, sampleTimeout, setDraws, statusUpdate, scheduleAfter, schedule,
    logAct, setPhase]
  rw [g_rand_sigma_zero (f s.rngIdx) (s.draws s.rngIdx) _ (needAct_sigma_zero cfg h pid k)]
  split <;> rfl

theorem setDraws_beginNeed (cfg : SimConfig) (h : allSigma0 cfg)
    (s : SimState) (f : ℕ → ℚ) (pid : ℕ) :
    beginNeed cfg (setDraws s f) pid = setDraws (beginNeed cfg s pid) f := by
  unfold beginNeed
  rw [show (setDraws s f).procs = s.procs from rfl,
    show (setDraws s f).now = s.now from rfl]
  cases hnu : nextUnmet (s.procs.getD pid default) with
  | none =>
    dsimp only
    rw [setDraws_statusUpdate, setDraws_setPhase]
  | some k =>
    dsimp only
    rw [setDraws_statusUpdate, setDraws_issueReqs]
    dsimp only
    rw [setDraws_startService cfg h, setDraws_setPhase]
    split <;> rfl

theorem setDraws_finishService (cfg : SimConfig) (h : allSigma0 cfg)
    (s : SimState) (f : ℕ → ℚ) (pid k : ℕ) :
    finishService cfg (setDraws s f) pid k = setDraws (finishService cfg s pid k) f := by
  unfold finishService
  rw [show (setDraws s f).now = s.now from rfl]
  dsimp only
  rw [setDraws_setNeedMet,
    show ∀ x : SimState, (setDraws x f).now = x.now from fun _ => rfl,
    setDraws_logAct, setDraws_statusUpdate, setDraws_releaseAll,
    setDraws_beginNeed cfg h]
  rfl

theorem setDraws_step (cfg : SimConfig) (h : allSigma0 cfg) (s : SimState) (f : ℕ → ℚ) :
    step cfg (setDraws s f) = setDraws (step cfg s) f := by
  unfold step
  rw [show (setDraws s f).queue = s.queue from rfl]
  cases hq : s.queue with
  | nil => rfl
  | cons e rest =>
    dsimp only
    cases hk : e.kind with
    | start =>
      show beginNeed cfg (setDraws { s with queue := rest, now := e.time } f) e.pid = _
      rw [setDraws_beginNeed cfg h]
    | resume =>
      show (match ((setDraws { s with queue := rest, now := e.time } f).procs.getD e.pid default).phase with
        | Phase.waitingAll k reqs =>
          if (reqs.all fun r => r.2) = true then
            startService cfg (setDraws { s with queue := rest, now := e.time } f) e.pid k
          else setDraws { s with queue := rest, now := e.time } f
        | _ => setDraws { s with queue := rest, now := e.time } f) = _
      rw [show (setDraws { s with queue := rest, now := e.time } f).procs =
          ({ s with queue := rest, now := e.time } : SimState).procs from rfl]
      cases hph : (({ s with queue := rest, now := e.time } : SimState).procs.getD e.pid default).phase with
      | waitingAll k2 reqs =>
        dsimp only
        split
        · exact setDraws_startService cfg h _ f e.pid k2
        · rfl
      | ready => rfl
      | inService k2 => rfl
      | done => rfl
    | timeoutEnd k =>
      show finishService cfg (setDraws { s with queue := rest, now := e.time } f) e.pid k = _
      rw [setDraws_finishService cfg h]

theorem setDraws_runAux (cfg : SimConfig) (h : allSigma0 cfg) (fuel : ℕ) :
    ∀ (s : SimState) (f : ℕ → ℚ),
      runAux cfg fuel (setDraws s f) = setDraws (runAux cfg fuel s) f := by
  induction fuel with
  | zero => intro s f; rfl
  | succ n ih =>
    intro s f
    unfold runAux
    rw [show (setDraws s f).crashed = s.crashed from rfl,
      show (setDraws s f).queue = s.queue from rfl]
    split
    · rfl
    · cases hq : s.queue with
      | nil => rfl
      | cons e rest =>
        dsimp only
        rw [setDraws_step cfg h, ih]

theorem setDraws_initState (cfg : SimConfig) (f g : ℕ → ℚ) :
    initState cfg f = setDraws (initState cfg g) f := by
  have hfold : ∀ (l : List ℕ) (s0 : SimState),
      l.foldl (fun s i => schedule s 0 i EvKind.start) (setDraws s0 f) =
        setDraws (l.foldl (fun s i => schedule s 0 i EvKind.start) s0) f := by
    intro l
    induction l with
    | nil => intro s0; rfl
    | cons x xs ih =>
      intro s0
      rw [List.foldl_cons, List.foldl_cons, setDraws_schedule, ih]
  unfold initState
  exact hfold (List.range cfg.patients.length)
    { now := 0, seqCtr := 0, draws := g, rngIdx := 0, queue := [],
      pools := cfg.capacities.map (fun c => ⟨c, 0, []⟩),
      procs := cfg.patients.map (fun ns =>
        ⟨ns.map (fun _ => false), ns.map (fun _ => Option.none), [], "", Phase.ready⟩),
      log := [], crashed := false }

/-- C2 (amended): the sampler has no injectable random source, so
reproducibility rests on the module-global generator state; the run is a
deterministic function of that stream and the configuration, and with a
zero-variance configuration the entire run except the generator itself is
the same whatever the stream: two runs over any two streams produce
identical patients, journals, pools, trace and clock. -/
theorem C2_zero_variance_stream_independence (cfg : SimConfig) (f g : ℕ → ℚ)
    (fuel : ℕ) (h : allSigma0 cfg) :
    runSim cfg f fuel = setDraws (runSim cfg g fuel) f := by
  unfold runSim
  rw [setDraws_initState cfg f g]
  exact setDraws_runAux cfg h fuel _ f

/-- C2 witness: the bottleneck configuration has zero variance, and its
runs over the all-zero and all-one streams have identical processes
(journals included). -/
theorem C2_zero_variance_stream_independence_witness :
    allSigma0 cfgB ∧
    (runSim cfgB (fun _ => 0) 200).procs = (runSim cfgB (fun _ => 1) 200).procs := by
  refine ⟨by decide, ?_⟩
  rw [C2_zero_variance_stream_independence cfgB (fun _ => 0) (fun _ => 1) 200 (by decide)]
  rfl

/-! ## C6: resource discipline, supporting lemmas -/

theorem evLE_time_le (a b : Ev) (h : evLE a b) : a.time ≤ b.time := by
  rcases h with h | ⟨h, _⟩
  · exact h.le
  · exact h.le

theorem mem_schedule_queue (s : SimState) (t : ℚ) (pid : ℕ) (k : EvKind) (e : Ev) :
    e ∈ (schedule s t pid k).queue ↔ e = ⟨t, s.seqCtr, pid, k⟩ ∨ e ∈ s.queue := by
  unfold schedule
  exact List.mem_orderedInsert evLE

theorem grantsAll_mono (cfg : SimConfig) (s s2 : SimState) (pid k : ℕ) (t t2 : ℚ)
    (h : grantsAll cfg s pid k t) (hlog : ∀ a ∈ s.log, a ∈ s2.log) (ht : t ≤ t2) :
    grantsAll cfg s2 pid k t2 := by
  intro j hj
  obtain ⟨t3, ht3, hmem⟩ := h j hj
  exact ⟨t3, ht3.trans ht, hlog _ hmem⟩

theorem phase_statusUpdate (s : SimState) (pid : ℕ) (st : String) (jf : Bool)
    (ts : ℚ) (pid2 : ℕ) :
    ((statusUpdate s pid st jf ts).procs.getD pid2 default).phase =
      ((s.procs.getD pid2 default)).phase := by
  unfold statusUpdate
  simp only [getD_updAt]
  split <;> rfl

theorem phase_setNeedMet (s : SimState) (pid k : ℕ) (ts : ℚ) (pid2 : ℕ) :
    ((setNeedMet s pid k ts).procs.getD pid2 default).phase =
      ((s.procs.getD pid2 default)).phase := by
  unfold setNeedMet
  simp only [getD_updAt]
  split <;> rfl

theorem phase_setPhase (s : SimState) (pid : ℕ) (ph : Phase) (pid2 : ℕ) :
    ((setPhase s pid ph).procs.getD pid2 default).phase =
      if pid = pid2 ∧ pid2 < s.procs.length then ph
      else ((s.procs.getD pid2 default)).phase := by
  unfold setPhase
  simp only [getD_updAt]
  split <;> rfl

theorem simInv_statusUpdate (cfg : SimConfig) (s : SimState) (pid : ℕ)
    (st : String) (jf : Bool) (ts : ℚ) (h : SimInv cfg s) :
    SimInv cfg (statusUpdate s pid st jf ts) := by
  obtain ⟨hs, hlb, hrd, hev, hfl⟩ := h
  refine ⟨hs, hlb, hrd, hev, ?_⟩
  intro pid2 k reqs hph
  rw [phase_statusUpdate] at hph
  exact hfl pid2 k reqs hph

theorem simInv_setNeedMet (cfg : SimConfig) (s : SimState) (pid k : ℕ) (ts : ℚ)
    (h : SimInv cfg s) : SimInv cfg (setNeedMet s pid k ts) := by
  obtain ⟨hs, hlb, hrd, hev, hfl⟩ := h
  refine ⟨hs, hlb, hrd, hev, ?_⟩
  intro pid2 k2 reqs hph
  rw [phase_setNeedMet] at hph
  exact hfl pid2 k2 reqs hph

/-- Appending any non-released trace entry preserves the invariant. -/
theorem simInv_logAct (cfg : SimConfig) (s : SimState) (a : Act)
    (hna : ∀ pid k i t, a ≠ Act.released pid k i t) (h : SimInv cfg s) :
    SimInv cfg (logAct s a) := by
  obtain ⟨hs, hlb, hrd, hev, hfl⟩ := h
  have hlog : ∀ x ∈ s.log, x ∈ (logAct s a).log := by
    intro x hx
    exact List.mem_append.mpr (Or.inl hx)
  refine ⟨hs, hlb, ?_, ?_, ?_⟩
  · intro pid k i t hmem
    rcases List.mem_append.mp hmem with hmem | hmem
    · obtain ⟨he, hg⟩ := hrd pid k i t hmem
      exact ⟨hlog _ he, grantsAll_mono cfg s _ pid k t t hg hlog le_rfl⟩
    · rcases List.mem_singleton.mp hmem with rfl
      exact absurd rfl (hna pid k i t)
  · intro e he k hk
    exact grantsAll_mono cfg s _ e.pid k e.time e.time (hev e he k hk) hlog le_rfl
  · intro pid2 k2 reqs hph
    obtain ⟨hlen, hfl2⟩ := hfl pid2 k2 reqs hph
    refine ⟨hlen, ?_⟩
    intro i hi hgr
    obtain ⟨t2, ht2, hmem⟩ := hfl2 i hi hgr
    exact ⟨t2, ht2, hlog _ hmem⟩

/-- Releasing a released entry preserves the invariant when the timeout
completion is already on the trace and all grants are in place. -/
theorem simInv_logReleased (cfg : SimConfig) (s : SimState) (pid k i : ℕ)
    (hend : Act.ended pid k s.now ∈ s.log)
    (hgr : grantsAll cfg s pid k s.now) (h : SimInv cfg s) :
    SimInv cfg (logAct s (Act.released pid k i s.now)) := by
  obtain ⟨hs, hlb, hrd, hev, hfl⟩ := h
  have hlog : ∀ x ∈ s.log, x ∈ (logAct s (Act.released pid k i s.now)).log := by
    intro x hx
    exact List.mem_append.mpr (Or.inl hx)
  refine ⟨hs, hlb, ?_, ?_, ?_⟩
  · intro pid2 k2 i2 t hmem
    rcases List.mem_append.mp hmem with hmem | hmem
    · obtain ⟨he, hg⟩ := hrd pid2 k2 i2 t hmem
      exact ⟨hlog _ he, grantsAll_mono cfg s _ pid2 k2 t t hg hlog le_rfl⟩
    · rcases List.mem_singleton.mp hmem with heq
      cases heq
      exact ⟨hlog _ hend, grantsAll_mono cfg s _ pid k s.now s.now hgr hlog le_rfl⟩
  · intro e he k2 hk
    exact grantsAll_mono cfg s _ e.pid k2 e.time e.time (hev e he k2 hk) hlog le_rfl
  · intro pid2 k2 reqs hph
    obtain ⟨hlen, hfl2⟩ := hfl pid2 k2 reqs hph
    refine ⟨hlen, ?_⟩
    intro j hj hgr2
    obtain ⟨t2, ht2, hmem⟩ := hfl2 j hj hgr2
    exact ⟨t2, ht2, hlog _ hmem⟩

theorem simInv_setPools (cfg : SimConfig) (s : SimState) (pl : List PoolState)
    (h : SimInv cfg s) : SimInv cfg { s with pools := pl } := by
  obtain ⟨a, b, c, d, e⟩ := h
  exact ⟨a, b, c, d, e⟩

theorem acquireOne_now (s : SimState) (pid k i q : ℕ) :
    (acquireOne s pid k i q).1.now = s.now := by
  simp only [acquireOne]
  split <;> rfl

theorem acquireOne_queue (s : SimState) (pid k i q : ℕ) :
    (acquireOne s pid k i q).1.queue = s.queue := by
  simp only [acquireOne]
  split <;> rfl

theorem acquireOne_procs (s : SimState) (pid k i q : ℕ) :
    (acquireOne s pid k i q).1.procs = s.procs := by
  simp only [acquireOne]
  split <;> rfl

theorem acquireOne_logLE (s : SimState) (pid k i q : ℕ) :
    ∀ a ∈ s.log, a ∈ (acquireOne s pid k i q).1.log := by
  intro a ha
  simp only [acquireOne]
  split
  · exact List.mem_append.mpr (Or.inl ha)
  · exact ha

theorem acquireOne_granted (s : SimState) (pid k i q : ℕ)
    (h : (acquireOne s pid k i q).2 = true) :
    Act.granted pid k i s.now ∈ (acquireOne s pid k i q).1.log := by
  revert h
  simp only [acquireOne]
  split
  · intro _
    exact List.mem_append.mpr (Or.inr (List.mem_singleton.mpr rfl))
  · intro h
    cases h

theorem simInv_acquireOne (cfg : SimConfig) (s : SimState) (pid k i q : ℕ)
    (h : SimInv cfg s) : SimInv cfg (acquireOne s pid k i q).1 := by
  have h2 := simInv_setPools cfg s
  simp only [acquireOne]
  split
  · exact simInv_logAct cfg _ _ (fun _ _ _ _ => by simp) (h2 _ h)
  · exact h2 _ h

theorem issueReqs_now (pid k : ℕ) (pools : List ℕ) :
    ∀ (s : SimState) (i : ℕ), (issueReqs pid k s pools i).1.now = s.now := by
  induction pools with
  | nil => intro s i; rfl
  | cons q qs ih =>
    intro s i
    show (issueReqs pid k (acquireOne s pid k i q).1 qs (i + 1)).1.now = s.now
    rw [ih, acquireOne_now]

theorem issueReqs_queue (pid k : ℕ) (pools : List ℕ) :
    ∀ (s : SimState) (i : ℕ), (issueReqs pid k s pools i).1.queue = s.queue := by
  induction pools with
  | nil => intro s i; rfl
  | cons q qs ih =>
    intro s i
    show (issueReqs pid k (acquireOne s pid k i q).1 qs (i + 1)).1.queue = s.queue
    rw [ih, acquireOne_queue]

theorem issueReqs_procs (pid k : ℕ) (pools : List ℕ) :
    ∀ (s : SimState) (i : ℕ), (issueReqs pid k s pools i).1.procs = s.procs := by
  induction pools with
  | nil => intro s i; rfl
  | cons q qs ih =>
    intro s i
    show (issueReqs pid k (acquireOne s pid k i q).1 qs (i + 1)).1.procs = s.procs
    rw [ih, acquireOne_procs]

theorem issueReqs_logLE (pid k : ℕ) (pools : List ℕ) :
    ∀ (s : SimState) (i : ℕ), ∀ a ∈ s.log, a ∈ (issueReqs pid k s pools i).1.log := by
  induction pools with
  | nil => intro s i a ha; exact ha
  | cons q qs ih =>
    intro s i a ha
    show a ∈ (issueReqs pid k (acquireOne s pid k i q).1 qs (i + 1)).1.log
    exact ih _ _ a (acquireOne_logLE s pid k i q a ha)

theorem issueReqs_granted (pid k : ℕ) (pools : List ℕ) :
    ∀ (s : SimState) (i : ℕ) (j : ℕ), j < pools.length →
      ((issueReqs pid k s pools i).2.getD j (0, false)).2 = true →
      Act.granted pid k (i + j) s.now ∈ (issueReqs pid k s pools i).1.log := by
  induction pools with
  | nil =>
    intro s i j hj
    cases hj
  | cons q qs ih =>
    intro s i j hj hflag
    cases j with
    | zero =>
      have hg : (acquireOne s pid k i q).2 = true := hflag
      have hmem := acquireOne_granted s pid k i q hg
      have := issueReqs_logLE pid k qs (acquireOne s pid k i q).1 (i + 1) _ hmem
      simpa using this
    | succ j2 =>
      have hj2 : j2 < qs.length := Nat.lt_of_succ_lt_succ hj
      have hflag2 : ((issueReqs pid k (acquireOne s pid k i q).1 qs (i + 1)).2.getD j2 (0, false)).2 = true := hflag
      have := ih (acquireOne s pid k i q).1 (i + 1) j2 hj2 hflag2
      rw [acquireOne_now] at this
      have harith : i + 1 + j2 = i + (j2 + 1) := by omega
      rw [harith] at this
      exact this

theorem simInv_issueReqs (cfg : SimConfig) (pid k : ℕ) (pools : List ℕ) :
    ∀ (s : SimState) (i : ℕ), SimInv cfg s → SimInv cfg (issueReqs pid k s pools i).1 := by
  induction pools with
  | nil => intro s i h; exact h
  | cons q qs ih =>
    intro s i h
    exact ih _ _ (simInv_acquireOne cfg s pid k i q h)

theorem simInv_schedule_other (cfg : SimConfig) (s : SimState) (t : ℚ) (pid : ℕ)
    (k : EvKind) (h : SimInv cfg s) (ht : s.now ≤ t)
    (hk : ∀ k2, k ≠ EvKind.timeoutEnd k2) : SimInv cfg (schedule s t pid k) := by
  obtain ⟨hs, hlb, hrd, hev, hfl⟩ := h
  refine ⟨List.Sorted.orderedInsert _ _ hs, ?_, hrd, ?_, hfl⟩
  · intro e he
    rcases (mem_schedule_queue s t pid k e).mp he with rfl | he2
    · exact ht
    · exact hlb e he2
  · intro e he k2 hk2
    rcases (mem_schedule_queue s t pid k e).mp he with rfl | he2
    · exact absurd hk2 (hk k2)
    · exact hev e he2 k2 hk2

theorem simInv_schedule_timeout (cfg : SimConfig) (s : SimState) (t : ℚ)
    (pid k2 : ℕ) (h : SimInv cfg s) (ht : s.now ≤ t)
    (hgr : grantsAll cfg s pid k2 t) :
    SimInv cfg (schedule s t pid (EvKind.timeoutEnd k2)) := by
  obtain ⟨hs, hlb, hrd, hev, hfl⟩ := h
  refine ⟨List.Sorted.orderedInsert _ _ hs, ?_, hrd, ?_, hfl⟩
  · intro e he
    rcases (mem_schedule_queue s t pid _ e).mp he with rfl | he2
    · exact ht
    · exact hlb e he2
  · intro e he k3 hk3
    rcases (mem_schedule_queue s t pid _ e).mp he with rfl | he2
    · have hk23 : k2 = k3 := by
        injection hk3
      subst hk23
      exact hgr
    · exact hev e he2 k3 hk3

theorem grantTo_now (s : SimState) (pid i : ℕ) : (grantTo s pid i).now = s.now := by
  unfold grantTo
  split
  · dsimp only
    split <;> rfl
  · rfl

theorem grantTo_pools (s : SimState) (pid i : ℕ) : (grantTo s pid i).pools = s.pools := by
  unfold grantTo
  split
  · dsimp only
    split <;> rfl
  · rfl

theorem grantTo_logLE (s : SimState) (pid i : ℕ) :
    ∀ a ∈ s.log, a ∈ (grantTo s pid i).log := by
  intro a ha
  unfold grantTo
  split
  · dsimp only
    split
    · exact List.mem_append.mpr (Or.inl ha)
    · exact List.mem_append.mpr (Or.inl ha)
  · exact ha

theorem simInv_grantTo (cfg : SimConfig) (s : SimState) (pid i : ℕ)
    (h : SimInv cfg s) : SimInv cfg (grantTo s pid i) := by
  unfold grantTo
  split
  · rename_i k reqs heq
    dsimp only
    have h1 : SimInv cfg (logAct s (Act.granted pid k i s.now)) :=
      simInv_logAct cfg s _ (fun _ _ _ _ => by simp) h
    have h2 : SimInv cfg (setPhase (logAct s (Act.granted pid k i s.now)) pid
        (Phase.waitingAll k (updAt reqs i (fun r => (r.1, true))))) := by
      obtain ⟨hs, hlb, hrd, hev, hfl⟩ := h1
      refine ⟨hs, hlb, hrd, hev, ?_⟩
      intro pid2 k3 reqs3 hph3
      rw [phase_setPhase] at hph3
      split at hph3
      · rename_i hc
        obtain ⟨hpe, hplt⟩ := hc
        subst hpe
        injection hph3 with hk3 hreqs3
        subst hk3
        subst hreqs3
        obtain ⟨hlen, hflags⟩ := h.flags pid k reqs heq
        refine ⟨by rw [updAt_length]; exact hlen, ?_⟩
        intro j hj hflag
        rw [updAt_length] at hj
        by_cases hji : i = j
        · subst hji
          exact ⟨s.now, le_rfl,
            List.mem_append.mpr (Or.inr (List.mem_singleton.mpr rfl))⟩
        · rw [getD_updAt, if_neg (fun hcc => hji hcc.1)] at hflag
          obtain ⟨t2, ht2, hmem⟩ := hflags j hj hflag
          exact ⟨t2, ht2, List.mem_append.mpr (Or.inl hmem)⟩
      · obtain ⟨hlen, hflags⟩ := h.flags pid2 k3 reqs3 hph3
        refine ⟨hlen, ?_⟩
        intro j hj hf
        obtain ⟨t2, ht2, hmem⟩ := hflags j hj hf
        exact ⟨t2, ht2, List.mem_append.mpr (Or.inl hmem)⟩
    split
    · exact simInv_schedule_other cfg _ s.now pid EvKind.resume h2 le_rfl
        (fun k2 hcon => EvKind.noConfusion hcon)
    · exact h2
  · exact h

theorem cascadeAux_now (q : ℕ) (fuel : ℕ) :
    ∀ s : SimState, (cascadeAux q fuel s).now = s.now := by
  induction fuel with
  | zero => intro s; rfl
  | succ n ih =>
    intro s
    unfold cascadeAux
    dsimp only
    split
    · split
      · rfl
      · rw [ih, grantTo_now]
    · rfl

theorem cascadeAux_logLE (q : ℕ) (fuel : ℕ) :
    ∀ s : SimState, ∀ a ∈ s.log, a ∈ (cascadeAux q fuel s).log := by
  induction fuel with
  | zero => intro s a ha; exact ha
  | succ n ih =>
    intro s a ha
    unfold cascadeAux
    dsimp only
    split
    · split
      · exact ha
      · exact ih _ a (grantTo_logLE _ _ _ a ha)
    · exact ha

theorem simInv_cascadeAux (cfg : SimConfig) (q : ℕ) (fuel : ℕ) :
    ∀ s : SimState, SimInv cfg s → SimInv cfg (cascadeAux q fuel s) := by
  induction fuel with
  | zero => intro s h; exact h
  | succ n ih =>
    intro s h
    unfold cascadeAux
    dsimp only
    split
    · split
      · exact h
      · exact ih _ (simInv_grantTo cfg _ _ _ (simInv_setPools cfg s _ h))
    · exact h

theorem releaseOne_now (s : SimState) (q : ℕ) : (releaseOne s q).now = s.now := by
  unfold releaseOne
  rw [cascadeAux_now]

theorem releaseOne_logLE (s : SimState) (q : ℕ) :
    ∀ a ∈ s.log, a ∈ (releaseOne s q).log := by
  intro a ha
  unfold releaseOne
  exact cascadeAux_logLE _ _ _ a ha

theorem simInv_releaseOne (cfg : SimConfig) (s : SimState) (q : ℕ)
    (h : SimInv cfg s) : SimInv cfg (releaseOne s q) := by
  unfold releaseOne
  exact simInv_cascadeAux cfg q _ _ (simInv_setPools cfg s _ h)

theorem releaseAll_now (pid k : ℕ) (pools : List ℕ) :
    ∀ (s : SimState) (i : ℕ), (releaseAll pid k s pools i).now = s.now := by
  induction pools with
  | nil => intro s i; rfl
  | cons q qs ih =>
    intro s i
    show (releaseAll pid k (releaseOne (logAct s (Act.released pid k i s.now)) q) qs (i + 1)).now = s.now
    rw [ih, releaseOne_now]
    rfl

theorem releaseAll_logLE (pid k : ℕ) (pools : List ℕ) :
    ∀ (s : SimState) (i : ℕ), ∀ a ∈ s.log, a ∈ (releaseAll pid k s pools i).log := by
  induction pools with
  | nil => intro s i a ha; exact ha
  | cons q qs ih =>
    intro s i a ha
    show a ∈ (releaseAll pid k (releaseOne (logAct s (Act.released pid k i s.now)) q) qs (i + 1)).log
    exact ih _ _ a (releaseOne_logLE _ q a (List.mem_append.mpr (Or.inl ha)))

theorem simInv_releaseAll (cfg : SimConfig) (pid k : ℕ) (pools : List ℕ) :
    ∀ (s : SimState) (i : ℕ), SimInv cfg s →
      Act.ended pid k s.now ∈ s.log → grantsAll cfg s pid k s.now →
      SimInv cfg (releaseAll pid k s pools i) := by
  induction pools with
  | nil => intro s i h _ _; exact h
  | cons q qs ih =>
    intro s i h hend hgr
    show SimInv cfg (releaseAll pid k (releaseOne (logAct s (Act.released pid k i s.now)) q) qs (i + 1))
    have h1 : SimInv cfg (logAct s (Act.released pid k i s.now)) :=
      simInv_logReleased cfg s pid k i hend hgr h
    have h2 : SimInv cfg (releaseOne (logAct s (Act.released pid k i s.now)) q) :=
      simInv_releaseOne cfg _ q h1
    have hlog : ∀ a ∈ s.log, a ∈ (releaseOne (logAct s (Act.released pid k i s.now)) q).log := by
      intro a ha
      exact releaseOne_logLE _ q a (List.mem_append.mpr (Or.inl ha))
    have hnow : (releaseOne (logAct s (Act.released pid k i s.now)) q).now = s.now := by
      rw [releaseOne_now]
      rfl
    apply ih _ _ h2
    · rw [hnow]
      exact hlog _ hend
    · rw [hnow]
      exact grantsAll_mono cfg s _ pid k s.now s.now hgr hlog le_rfl

theorem simInv_setRngIdx (cfg : SimConfig) (s : SimState) (n : ℕ)
    (h : SimInv cfg s) : SimInv cfg { s with rngIdx := n } := by
  obtain ⟨a, b, c, d, e⟩ := h
  exact ⟨a, b, c, d, e⟩

theorem simInv_setCrashed (cfg : SimConfig) (s : SimState)
    (h : SimInv cfg s) : SimInv cfg { s with crashed := true } := by
  obtain ⟨a, b, c, d, e⟩ := h
  exact ⟨a, b, c, d, e⟩

theorem simInv_setPhase_notWaiting (cfg : SimConfig) (s : SimState) (pid : ℕ)
    (ph : Phase) (hph : ∀ k reqs, ph ≠ Phase.waitingAll k reqs)
    (h : SimInv cfg s) : SimInv cfg (setPhase s pid ph) := by
  obtain ⟨hs, hlb, hrd, hev, hfl⟩ := h
  refine ⟨hs, hlb, hrd, hev, ?_⟩
  intro pid2 k3 reqs3 hph3
  rw [phase_setPhase] at hph3
  split at hph3
  · exact absurd hph3 (hph k3 reqs3)
  · exact hfl pid2 k3 reqs3 hph3

theorem simInv_scheduleAfter_timeout (cfg : SimConfig) (s : SimState) (d : ℚ)
    (pid k2 : ℕ) (h : SimInv cfg s) (hgr : grantsAll cfg s pid k2 s.now) :
    SimInv cfg (scheduleAfter s d pid (EvKind.timeoutEnd k2)) := by
  unfold scheduleAfter
  split
  · exact simInv_setCrashed cfg s h
  · rename_i hd
    have hd2 : 0 ≤ d := not_lt.mp hd
    have ht : s.now ≤ qadd s.now d := by
      rw [qadd_eq]
      linarith
    exact simInv_schedule_timeout cfg s _ pid k2 h ht
      (grantsAll_mono cfg s s pid k2 s.now _ hgr (fun a ha => ha) ht)

theorem simInv_startService (cfg : SimConfig) (s : SimState) (pid k : ℕ)
    (h : SimInv cfg s) (hgr : grantsAll cfg s pid k s.now) :
    SimInv cfg (startService cfg s pid k) := by
  unfold startService
  simp only [sampleTimeout]
  apply simInv_scheduleAfter_timeout
  · apply simInv_setPhase_notWaiting
    · intro k2 reqs hcon
      exact Phase.noConfusion hcon
    · apply simInv_logAct
      · intro p2 k2 i2 t2
        simp
      · exact simInv_setRngIdx cfg _ _ (simInv_statusUpdate cfg s pid _ true s.now h)
  · exact grantsAll_mono cfg s _ pid k s.now _ hgr
      (fun a ha => List.mem_append.mpr (Or.inl ha)) le_rfl

theorem all_getD_true (l : List (ℕ × Bool)) (hall : (l.all fun x => x.2) = true)
    (j : ℕ) (hj : j < l.length) : (l.getD j (0, false)).2 = true := by
  rw [List.getD_eq_getElem l (0, false) hj]
  exact List.all_eq_true.mp hall _ (List.getElem_mem hj)

theorem issueReqs_len (pid k : ℕ) (pools : List ℕ) (s : SimState) (i : ℕ) :
    (issueReqs pid k s pools i).2.length = pools.length := by
  have h := issueReqs_pools pid k pools s i
  calc (issueReqs pid k s pools i).2.length
      = ((issueReqs pid k s pools i).2.map Prod.fst).length := (List.length_map _ _).symm
    _ = pools.length := by rw [h]

theorem issueReqs_grantsAll (cfg : SimConfig) (pid k : ℕ) (s : SimState)
    (hall : ((issueReqs pid k s (reqPools cfg pid k) 0).2.all fun x => x.2) = true) :
    grantsAll cfg (issueReqs pid k s (reqPools cfg pid k) 0).1 pid k
      (issueReqs pid k s (reqPools cfg pid k) 0).1.now := by
  intro j hj
  have hlen := issueReqs_len pid k (reqPools cfg pid k) s 0
  have hflag := all_getD_true _ hall j (by rw [hlen]; exact hj)
  have hg := issueReqs_granted pid k (reqPools cfg pid k) s 0 j hj hflag
  have hnow := issueReqs_now pid k (reqPools cfg pid k) s 0
  exact ⟨s.now, le_of_eq hnow.symm, by simpa using hg⟩

theorem simInv_beginNeed (cfg : SimConfig) (s : SimState) (pid : ℕ)
    (h : SimInv cfg s) : SimInv cfg (beginNeed cfg s pid) := by
  unfold beginNeed
  split
  · exact simInv_setPhase_notWaiting cfg _ pid Phase.done
      (fun k reqs hcon => Phase.noConfusion hcon)
      (simInv_statusUpdate cfg s pid _ false s.now h)
  · rename_i k heq
    dsimp only
    have h1 := simInv_statusUpdate cfg s pid ((cfg.needAct pid k).label ++ ":queue") true s.now h
    have hI := simInv_issueReqs cfg pid k (reqPools cfg pid k) _ 0 h1
    split
    · rename_i hall
      exact simInv_startService cfg _ pid k hI (issueReqs_grantsAll cfg pid k _ hall)
    · obtain ⟨hs, hlb, hrd, hev, hfl⟩ := hI
      refine ⟨hs, hlb, hrd, hev, ?_⟩
      intro pid2 k3 reqs3 hph3
      rw [phase_setPhase] at hph3
      split at hph3
      · rename_i hc
        obtain ⟨hpe, hplt⟩ := hc
        subst hpe
        injection hph3 with hk3 hreqs3
        subst hk3
        subst hreqs3
        refine ⟨issueReqs_len pid k (reqPools cfg pid k) _ 0, ?_⟩
        intro j hj hflag
        have hlen := issueReqs_len pid k (reqPools cfg pid k)
          (statusUpdate s pid ((cfg.needAct pid k).label ++ ":queue") true s.now) 0
        have hj2 : j < (reqPools cfg pid k).length := by rw [← hlen]; exact hj
        have hg := issueReqs_granted pid k (reqPools cfg pid k)
          (statusUpdate s pid ((cfg.needAct pid k).label ++ ":queue") true s.now) 0 j hj2 hflag
        have hnow := issueReqs_now pid k (reqPools cfg pid k)
          (statusUpdate s pid ((cfg.needAct pid k).label ++ ":queue") true s.now) 0
        exact ⟨(statusUpdate s pid ((cfg.needAct pid k).label ++ ":queue") true s.now).now,
          le_of_eq hnow.symm, by simpa using hg⟩
      · exact hfl pid2 k3 reqs3 hph3

theorem simInv_finishService (cfg : SimConfig) (s : SimState) (pid k : ℕ)
    (h : SimInv cfg s) (hgr : grantsAll cfg s pid k s.now) :
    SimInv cfg (finishService cfg s pid k) := by
  unfold finishService
  dsimp only
  apply simInv_beginNeed
  apply simInv_releaseAll
  · apply simInv_statusUpdate
    apply simInv_logAct
    · intro p2 k2 i2 t2
      simp
    · exact simInv_setNeedMet cfg s pid k s.now h
  · exact List.mem_append.mpr (Or.inr (List.mem_singleton.mpr rfl))
  · exact grantsAll_mono cfg s _ pid k s.now _ hgr
      (fun a ha => List.mem_append.mpr (Or.inl ha)) le_rfl

theorem simInv_step (cfg : SimConfig) (s : SimState) (h : SimInv cfg s) :
    SimInv cfg (step cfg s) := by
  unfold step
  split
  · exact h
  · rename_i e rest heq
    have h1 : SimInv cfg { s with queue := rest, now := e.time } := by
      have hsort : List.Sorted evLE s.queue := h.sorted
      rw [heq] at hsort
      obtain ⟨hhead, htail⟩ := List.sorted_cons.mp hsort
      have hin : e ∈ s.queue := by rw [heq]; exact List.mem_cons_self e rest
      have hnow_le : s.now ≤ e.time := h.timeLB e hin
      refine ⟨htail, ?_, h.discipline, ?_, ?_⟩
      · intro ev hev2
        exact evLE_time_le e ev (hhead ev hev2)
      · intro ev hev2 k2 hk2
        have hmem2 : ev ∈ s.queue := by rw [heq]; exact List.mem_cons_of_mem e hev2
        exact h.evOK ev hmem2 k2 hk2
      · intro pid2 k2 reqs hph2
        obtain ⟨hlen, hflags⟩ := h.flags pid2 k2 reqs hph2
        refine ⟨hlen, ?_⟩
        intro j hj hf
        obtain ⟨t2, ht2, hmem⟩ := hflags j hj hf
        exact ⟨t2, ht2.trans hnow_le, hmem⟩
    split
    · exact simInv_beginNeed cfg _ _ h1
    · dsimp only
      split
      · rename_i k2 reqs heph
        split
        · rename_i hall
          apply simInv_startService cfg _ e.pid k2 h1
          obtain ⟨hlen, hflags⟩ := h1.flags e.pid k2 reqs heph
          intro j hj
          have hj2 : j < reqs.length := by rw [hlen]; exact hj
          exact hflags j hj2 (all_getD_true reqs hall j hj2)
        · exact h1
      · exact h1
    · rename_i k heqk
      apply simInv_finishService cfg _ e.pid k h1
      have hin : e ∈ s.queue := by rw [heq]; exact List.mem_cons_self e rest
      exact h.evOK e hin k heqk

theorem now_foldl_schedule (l : List ℕ) :
    ∀ s0 : SimState,
      (l.foldl (fun s i => schedule s 0 i EvKind.start) s0).now = s0.now := by
  induction l with
  | nil => intro s0; rfl
  | cons x xs ih => intro s0; rw [List.foldl_cons, ih]; rfl

theorem log_foldl_schedule (l : List ℕ) :
    ∀ s0 : SimState,
      (l.foldl (fun s i => schedule s 0 i EvKind.start) s0).log = s0.log := by
  induction l with
  | nil => intro s0; rfl
  | cons x xs ih => intro s0; rw [List.foldl_cons, ih]; rfl

theorem sorted_foldl_schedule (l : List ℕ) :
    ∀ s0 : SimState, List.Sorted evLE s0.queue →
      List.Sorted evLE (l.foldl (fun s i => schedule s 0 i EvKind.start) s0).queue := by
  induction l with
  | nil => intro s0 h; exact h
  | cons x xs ih =>
    intro s0 h
    rw [List.foldl_cons]
    exact ih _ (List.Sorted.orderedInsert _ _ h)

theorem mem_foldl_schedule (l : List ℕ) :
    ∀ (s0 : SimState) (e : Ev),
      e ∈ (l.foldl (fun s i => schedule s 0 i EvKind.start) s0).queue →
      (e.time = 0 ∧ e.kind = EvKind.start) ∨ e ∈ s0.queue := by
  induction l with
  | nil => intro s0 e he; exact Or.inr he
  | cons x xs ih =>
    intro s0 e he
    rw [List.foldl_cons] at he
    rcases ih _ e he with h | h
    · exact Or.inl h
    · rcases (mem_schedule_queue s0 0 x EvKind.start e).mp h with rfl | h2
      · exact Or.inl ⟨rfl, rfl⟩
      · exact Or.inr h2

theorem phase_initState (cfg : SimConfig) (draws : ℕ → ℚ) (pid : ℕ) :
    ((initState cfg draws).procs.getD pid default).phase = Phase.ready := by
  unfold initState
  rw [procs_foldl_schedule]
  simp only [List.getD_eq_getElem?_getD, List.getElem?_map]
  cases hx : cfg.patients[pid]? with
  | none => rfl
  | some x => rfl

theorem simInv_initState (cfg : SimConfig) (draws : ℕ → ℚ) :
    SimInv cfg (initState cfg draws) := by
  refine ⟨?_, ?_, ?_, ?_, ?_⟩
  · exact sorted_foldl_schedule _ _ List.sorted_nil
  · intro e he
    show (initState cfg draws).now ≤ e.time
    rw [show (initState cfg draws).now = 0 from now_foldl_schedule _ _]
    rcases mem_foldl_schedule _ _ e he with ⟨ht, _⟩ | h
    · rw [ht]
    · cases h
  · intro pid k i t hmem
    have : (initState cfg draws).log = [] := log_foldl_schedule _ _
    rw [this] at hmem
    cases hmem
  · intro e he k hk
    rcases mem_foldl_schedule _ _ e he with ⟨_, hkind⟩ | h
    · rw [hkind] at hk
      cases hk
    · cases h
  · intro pid k reqs hph
    rw [phase_initState] at hph
    cases hph

theorem simInv_runAux (cfg : SimConfig) (fuel : ℕ) :
    ∀ s : SimState, SimInv cfg s → SimInv cfg (runAux cfg fuel s) := by
  induction fuel with
  | zero => intro s h; exact h
  | succ n ih =>
    intro s h
    unfold runAux
    split
    · exact h
    · split
      · exact h
      · exact ih _ (simInv_step cfg s h)

theorem simInv_runSim (cfg : SimConfig) (draws : ℕ → ℚ) (fuel : ℕ) :
    SimInv cfg (runSim cfg draws fuel) :=
  simInv_runAux cfg fuel _ (simInv_initState cfg draws)

/-! ## C6: the claim -/

/-- C6: on the kernel trace of any run, a resource held for need k of a
patient is released only at the very time the need's service timeout
completed, and only once every one of the activity's required requests
had been granted (at times no later than the release): no resource is
ever released before the conjunctive wait fully resolved and the
duration elapsed. -/
theorem C6_release_discipline (cfg : SimConfig) (draws : ℕ → ℚ) (fuel : ℕ)
    (pid k i : ℕ) (t : ℚ)
    (hrel : Act.released pid k i t ∈ (runSim cfg draws fuel).log) :
    Act.ended pid k t ∈ (runSim cfg draws fuel).log ∧
    ∀ j, j < reqCount cfg pid k →
      ∃ t2, t2 ≤ t ∧ Act.granted pid k j t2 ∈ (runSim cfg draws fuel).log :=
  (simInv_runSim cfg draws fuel).discipline pid k i t hrel

set_option maxRecDepth 4000 in
/-- C6 witness: in the bottleneck run, patient 0 releases its preop
request at time 30; the theorem yields the logged timeout completion at
30 and a grant no later than 30. -/
theorem C6_release_discipline_witness :
    Act.released 0 0 0 30 ∈ (runSim cfgB zeroDraws 200).log ∧
    Act.ended 0 0 30 ∈ (runSim cfgB zeroDraws 200).log ∧
    (0 < reqCount cfgB 0 0 ∧
      ∃ t2, t2 ≤ 30 ∧ Act.granted 0 0 0 t2 ∈ (runSim cfgB zeroDraws 200).log) := by
  have h := C6_release_discipline cfgB zeroDraws 200 0 0 0 30 (by decide)
  exact ⟨by decide, h.1, by decide, h.2 0 (by decide)⟩
